import Mathlib

/-!
Verification of the GardenPlanner persistence layer (app/data/schema.ts,
localStorageRepository.ts, dexieRepository.ts, migration.ts).

Modelling conventions for the shallow embedding:

* Stored JSON is the inductive `Json` below.  JSON numbers are modelled as
  integers (`Int`): no claim in scope depends on fractional values, and the
  Zod `.int()` refinements make the integral subset the relevant one.
* `JSON.stringify` followed by `JSON.parse` (and likewise the structured
  clone used by IndexedDB rows) is the identity on the values this layer
  writes, so strings in `localStorage` are modelled by the `Blob` type:
  either a well-formed JSON value or `garbage` (present but unparsable).
  `JSON.stringify` drops object fields whose value is `undefined`, which is
  why the encoders below omit absent optional fields.
* Zod's `z.string().datetime({ offset: true })` check is modelled by
  `isDatetime`, a checker for the canonical UTC form
  `YYYY-MM-DDTHH:MM:SSZ`; `new Date(s).getTime()` on such strings is
  modelled by `getTime`, the digit string read as a number, which is
  monotone in the instant denoted.  No claim depends on the exact accepted
  datetime language, only on validated dates carrying a comparable time.
* Zod's `z.string().url()` check is modelled by `isUrl` (an http(s) scheme
  check).  No claim depends on the exact accepted URL language.
-/

namespace GardenPlanner

/-- Model of a parsed JSON value (objects keep their field list). -/
inductive Json where
  | null : Json
  | bool (b : Bool) : Json
  | num (n : Int) : Json
  | str (s : String) : Json
  | arr (xs : List Json) : Json
  | obj (fields : List (String × Json)) : Json

/-- Monadic sequencing on `Option`, written out as a match.  The decoders
below chain through this definition (rather than `do` notation) so they
unfold step by step in proofs. -/
def obind (x : Option α) (f : α → Option β) : Option β :=
  match x with
  | none => none
  | some a => f a

@[simp] theorem obind_none (f : α → Option β) : obind none f = none := rfl

@[simp] theorem obind_some (a : α) (f : α → Option β) : obind (some a) f = f a := rfl

theorem obind_eq_some {x : Option α} {f : α → Option β} {b : β}
    (h : obind x f = some b) : ∃ a, x = some a ∧ f a = some b := by
  cases x with
  | none => simp [obind] at h
  | some a => exact ⟨a, rfl, h⟩

/-- Lookup of a field in a JSON object field list (first occurrence wins,
as JavaScript property access does on parsed JSON, where duplicate keys
cannot survive parsing at all). -/
def lookupField (fs : List (String × Json)) (k : String) : Option Json :=
  match fs with
  | [] => none
  | f :: rest => if f.1 == k then some f.2 else lookupField rest k

-- ---------------------------------------------------------------------------
-- Zod-primitive decoders (the semantics of the leaf schema combinators)
-- ---------------------------------------------------------------------------

/-- Semantics of `z.string()`. -/
def asStr : Json → Option String
  | .str s => some s
  | _ => none

/-- Semantics of `z.string().min(1)`. -/
def asNonemptyStr (j : Json) : Option String :=
  (asStr j).bind fun s => if s.length ≥ 1 then some s else none

/-- Semantics of `z.boolean()`. -/
def asBool : Json → Option Bool
  | .bool b => some b
  | _ => none

/-- Semantics of `z.number()` (and of `z.number().int()`, integral by the
number model). -/
def asNum : Json → Option Int
  | .num n => some n
  | _ => none

/-- Semantics of `z.number().int().positive()`. -/
def asPosInt (j : Json) : Option Int :=
  (asNum j).bind fun n => if 0 < n then some n else none

/-- Semantics of `z.number().int().min(0)`. -/
def asNonnegInt (j : Json) : Option Int :=
  (asNum j).bind fun n => if 0 ≤ n then some n else none

/-- Semantics of `z.number().int().min(1).max(12)` (month fields). -/
def asMonth (j : Json) : Option Int :=
  (asNum j).bind fun n => if 1 ≤ n ∧ n ≤ 12 then some n else none

/-- Semantics of `z.number().int().min(1).max(20)` (planter grid sizes). -/
def asGridDim (j : Json) : Option Int :=
  (asNum j).bind fun n => if 1 ≤ n ∧ n ≤ 20 then some n else none

/-- Model of the `z.string().datetime({ offset: true })` format check:
accepts the canonical UTC form `YYYY-MM-DDTHH:MM:SSZ`. -/
def isDatetime (s : String) : Bool :=
  match s.toList with
  | [y1, y2, y3, y4, '-', m1, m2, '-', d1, d2, 'T',
     h1, h2, ':', n1, n2, ':', s1, s2, 'Z'] =>
      [y1, y2, y3, y4, m1, m2, d1, d2, h1, h2, n1, n2, s1, s2].all Char.isDigit
  | _ => false

/-- Model of `new Date(s).getTime()` on validated datetime strings: the
digit string read as a number, which is monotone in the denoted instant
for the accepted UTC form. -/
def getTime (s : String) : Nat :=
  (s.toList.filter Char.isDigit).foldl (fun a c => 10 * a + (c.toNat - 48)) 0

/-- Semantics of `z.string().datetime({ offset: true })`. -/
def asDatetime (j : Json) : Option String :=
  (asStr j).bind fun s => if isDatetime s then some s else none

/-- Model of the `z.string().url()` check (http(s) scheme). -/
def isUrl (s : String) : Bool :=
  s.startsWith "http://" || s.startsWith "https://"

/-- Semantics of `z.string().url()`. -/
def asUrl (j : Json) : Option String :=
  (asStr j).bind fun s => if isUrl s then some s else none

-- ---------------------------------------------------------------------------
-- Zod object-field combinators
-- ---------------------------------------------------------------------------

/-- Semantics of a required object field: missing key fails, present value
must satisfy the field schema. -/
def reqField (fs : List (String × Json)) (k : String) (f : Json → Option α) : Option α :=
  (lookupField fs k).bind f

/-- Semantics of `.optional()` on an object field: missing key yields
`none`, a present value must satisfy the field schema (null is rejected). -/
def optField (fs : List (String × Json)) (k : String) (f : Json → Option α) :
    Option (Option α) :=
  match lookupField fs k with
  | none => some none
  | some j => (f j).map some

/-- Semantics of `.default(d)` on an object field: missing key yields the
default, a present value must satisfy the field schema. -/
def dfltField (fs : List (String × Json)) (k : String) (f : Json → Option α) (d : α) :
    Option α :=
  match lookupField fs k with
  | none => some d
  | some j => f j

/-- Semantics of `.nullable()` applied to a field schema. -/
def asNullable (f : Json → Option α) (j : Json) : Option (Option α) :=
  match j with
  | .null => some none
  | _ => (f j).map some

/-- Element-wise decoding of a JSON array body: Zod's `z.array(X)` fails as
a whole if any element fails. -/
def decList (f : Json → Option α) : List Json → Option (List α)
  | [] => some []
  | x :: xs =>
    match f x with
    | none => none
    | some b =>
      match decList f xs with
      | none => none
      | some bs => some (b :: bs)

/-- Semantics of `z.array(X)`. -/
def asArr (f : Json → Option α) (j : Json) : Option (List α) :=
  match j with
  | .arr xs => decList f xs
  | _ => none

/-- Encoder-side helper: an optional object field contributes either one
field or nothing to the encoded field list (`JSON.stringify` drops
`undefined`-valued properties). -/
def optPair (k : String) (v : Option Json) : List (String × Json) :=
  match v with
  | none => []
  | some j => [(k, j)]

-- ---------------------------------------------------------------------------
-- Enumerations (schema.ts)
-- ---------------------------------------------------------------------------

/-- Enumeration `SunRequirementSchema` (the source's `"partial"` value is
the `partialSun` constructor, `partial` being reserved in Lean). -/
inductive SunRequirement where
  | full | partialSun | shade
deriving DecidableEq

/-- Decoder for `SunRequirementSchema`. -/
def decSunRequirement (j : Json) : Option SunRequirement :=
  match j with
  | .str "full" => some .full
  | .str "partial" => some .partialSun
  | .str "shade" => some .shade
  | _ => none

/-- Encoder for `SunRequirementSchema`. -/
def encSunRequirement : SunRequirement → Json
  | .full => .str "full"
  | .partialSun => .str "partial"
  | .shade => .str "shade"

/-- Enumeration `PlantSourceSchema` (provenance tag). -/
inductive PlantSource where
  | bundled | synced | custom
deriving DecidableEq

/-- Decoder for `PlantSourceSchema`. -/
def decPlantSource (j : Json) : Option PlantSource :=
  match j with
  | .str "bundled" => some .bundled
  | .str "synced" => some .synced
  | .str "custom" => some .custom
  | _ => none

/-- Encoder for `PlantSourceSchema`. -/
def encPlantSource : PlantSource → Json
  | .bundled => .str "bundled"
  | .synced => .str "synced"
  | .custom => .str "custom"

-- ---------------------------------------------------------------------------
-- Plant (PlantSchema)
-- ---------------------------------------------------------------------------

/-- The `Plant` entity inferred from `PlantSchema`. -/
structure Plant where
  id : String
  name : String
  color : String
  icon : String
  description : Option String
  variety : Option String
  daysToHarvest : Option Int
  isSeed : Bool
  amount : Option Int
  spacingCm : Option Int
  frostHardy : Option Bool
  companions : List String
  antagonists : List String
  sowIndoorMonths : List Int
  sowDirectMonths : List Int
  harvestMonths : List Int
  sunRequirement : Option SunRequirement
  source : PlantSource
deriving DecidableEq

/-- Decoder for `PlantSchema` (the meaning of
`safeParse(PlantSchema, raw)`, minus the warning side effect). -/
def decPlant (j : Json) : Option Plant :=
  match j with
  | .obj fs =>
    obind (reqField fs "id" asStr) fun id =>
    obind (reqField fs "name" asNonemptyStr) fun name =>
    obind (reqField fs "color" asStr) fun color =>
    obind (reqField fs "icon" asStr) fun icon =>
    obind (optField fs "description" asStr) fun description =>
    obind (optField fs "variety" asStr) fun variety =>
    obind (optField fs "daysToHarvest" asPosInt) fun daysToHarvest =>
    obind (dfltField fs "isSeed" asBool false) fun isSeed =>
    obind (optField fs "amount" asNonnegInt) fun amount =>
    obind (optField fs "spacingCm" asPosInt) fun spacingCm =>
    obind (optField fs "frostHardy" asBool) fun frostHardy =>
    obind (dfltField fs "companions" (asArr asStr) []) fun companions =>
    obind (dfltField fs "antagonists" (asArr asStr) []) fun antagonists =>
    obind (dfltField fs "sowIndoorMonths" (asArr asMonth) []) fun sowIndoorMonths =>
    obind (dfltField fs "sowDirectMonths" (asArr asMonth) []) fun sowDirectMonths =>
    obind (dfltField fs "harvestMonths" (asArr asMonth) []) fun harvestMonths =>
    obind (optField fs "sunRequirement" decSunRequirement) fun sunRequirement =>
    obind (dfltField fs "source" decPlantSource .bundled) fun source =>
    some ⟨id, name, color, icon, description, variety, daysToHarvest, isSeed,
          amount, spacingCm, frostHardy, companions, antagonists,
          sowIndoorMonths, sowDirectMonths, harvestMonths, sunRequirement, source⟩
  | _ => none

/-- Encoder for a typed `Plant` (its image under `JSON.stringify` /
structured clone). -/
def encPlant (p : Plant) : Json :=
  .obj ([("id", .str p.id), ("name", .str p.name), ("color", .str p.color),
         ("icon", .str p.icon)]
    ++ optPair "description" (p.description.map .str)
    ++ optPair "variety" (p.variety.map .str)
    ++ optPair "daysToHarvest" (p.daysToHarvest.map .num)
    ++ [("isSeed", .bool p.isSeed)]
    ++ optPair "amount" (p.amount.map .num)
    ++ optPair "spacingCm" (p.spacingCm.map .num)
    ++ optPair "frostHardy" (p.frostHardy.map .bool)
    ++ [("companions", .arr (p.companions.map .str)),
        ("antagonists", .arr (p.antagonists.map .str)),
        ("sowIndoorMonths", .arr (p.sowIndoorMonths.map .num)),
        ("sowDirectMonths", .arr (p.sowDirectMonths.map .num)),
        ("harvestMonths", .arr (p.harvestMonths.map .num))]
    ++ optPair "sunRequirement" (p.sunRequirement.map encSunRequirement)
    ++ [("source", encPlantSource p.source)])

/-- Validity of a typed `Plant`: exactly the refinements `PlantSchema`
imposes beyond the field types. -/
def validPlant (p : Plant) : Bool :=
  p.name.length ≥ 1
    && (match p.daysToHarvest with | none => true | some n => 0 < n)
    && (match p.amount with | none => true | some n => 0 ≤ n)
    && (match p.spacingCm with | none => true | some n => 0 < n)
    && p.sowIndoorMonths.all (fun n => 1 ≤ n && n ≤ 12)
    && p.sowDirectMonths.all (fun n => 1 ≤ n && n ≤ 12)
    && p.harvestMonths.all (fun n => 1 ≤ n && n ≤ 12)

-- ---------------------------------------------------------------------------
-- PestEvent (PestEventSchema)
-- ---------------------------------------------------------------------------

/-- The `PestEvent` entity inferred from `PestEventSchema`. -/
structure PestEvent where
  id : String
  date : String
  type : Bool
  description : String
deriving DecidableEq

/-- Decoder for the `z.enum(["pest", "treatment"])` field of a pest event
(`true` is `"pest"`, `false` is `"treatment"`). -/
def decPestKind (j : Json) : Option Bool :=
  match j with
  | .str "pest" => some true
  | .str "treatment" => some false
  | _ => none

/-- Encoder for the pest event kind. -/
def encPestKind (b : Bool) : Json :=
  if b then .str "pest" else .str "treatment"

/-- Decoder for `PestEventSchema`. -/
def decPestEvent (j : Json) : Option PestEvent :=
  match j with
  | .obj fs =>
    obind (reqField fs "id" asStr) fun id =>
    obind (reqField fs "date" asDatetime) fun date =>
    obind (reqField fs "type" decPestKind) fun type =>
    obind (reqField fs "description" asStr) fun description =>
    some ⟨id, date, type, description⟩
  | _ => none

/-- Encoder for a typed `PestEvent`. -/
def encPestEvent (e : PestEvent) : Json :=
  .obj [("id", .str e.id), ("date", .str e.date), ("type", encPestKind e.type),
        ("description", .str e.description)]

/-- Validity of a typed `PestEvent`. -/
def validPestEvent (e : PestEvent) : Bool :=
  isDatetime e.date

-- ---------------------------------------------------------------------------
-- PlantInstance (PlantInstanceSchema)
-- ---------------------------------------------------------------------------

/-- The `PlantInstance` entity inferred from `PlantInstanceSchema`. -/
structure PlantInstance where
  instanceId : String
  plant : Plant
  plantingDate : Option String
  harvestDate : Option String
  variety : Option String
  pestEvents : List PestEvent
deriving DecidableEq

/-- Decoder for `PlantInstanceSchema`. -/
def decPlantInstance (j : Json) : Option PlantInstance :=
  match j with
  | .obj fs =>
    obind (reqField fs "instanceId" asStr) fun instanceId =>
    obind (reqField fs "plant" decPlant) fun plant =>
    obind (optField fs "plantingDate" asDatetime) fun plantingDate =>
    obind (optField fs "harvestDate" asDatetime) fun harvestDate =>
    obind (optField fs "variety" asStr) fun variety =>
    obind (dfltField fs "pestEvents" (asArr decPestEvent) []) fun pestEvents =>
    some ⟨instanceId, plant, plantingDate, harvestDate, variety, pestEvents⟩
  | _ => none

/-- Encoder for a typed `PlantInstance`. -/
def encPlantInstance (pi : PlantInstance) : Json :=
  .obj ([("instanceId", .str pi.instanceId), ("plant", encPlant pi.plant)]
    ++ optPair "plantingDate" (pi.plantingDate.map .str)
    ++ optPair "harvestDate" (pi.harvestDate.map .str)
    ++ optPair "variety" (pi.variety.map .str)
    ++ [("pestEvents", .arr (pi.pestEvents.map encPestEvent))])

/-- Validity of a typed `PlantInstance`. -/
def validPlantInstance (pi : PlantInstance) : Bool :=
  validPlant pi.plant
    && (match pi.plantingDate with | none => true | some d => isDatetime d)
    && (match pi.harvestDate with | none => true | some d => isDatetime d)
    && pi.pestEvents.all validPestEvent

-- ---------------------------------------------------------------------------
-- PlanterSquare (PlanterSquareSchema)
-- ---------------------------------------------------------------------------

/-- The `PlanterSquare` entity inferred from `PlanterSquareSchema`
(required field holding a nullable plant instance). -/
structure PlanterSquare where
  plantInstance : Option PlantInstance
deriving DecidableEq

/-- Decoder for `PlanterSquareSchema`. -/
def decPlanterSquare (j : Json) : Option PlanterSquare :=
  match j with
  | .obj fs =>
    obind (reqField fs "plantInstance" (asNullable decPlantInstance)) fun pi =>
    some ⟨pi⟩
  | _ => none

/-- Encoder for a typed `PlanterSquare` (the nullable field is always
present, `null` when empty). -/
def encPlanterSquare (s : PlanterSquare) : Json :=
  .obj [("plantInstance", match s.plantInstance with
                          | none => .null
                          | some pi => encPlantInstance pi)]

/-- Validity of a typed `PlanterSquare`. -/
def validPlanterSquare (s : PlanterSquare) : Bool :=
  match s.plantInstance with
  | none => true
  | some pi => validPlantInstance pi

-- ---------------------------------------------------------------------------
-- VirtualSection (VirtualSectionSchema)
-- ---------------------------------------------------------------------------

/-- The band orientation enumeration of `VirtualSectionSchema`. -/
inductive SectionKind where
  | rows | columns
deriving DecidableEq

/-- Decoder for the section orientation enum. -/
def decSectionKind (j : Json) : Option SectionKind :=
  match j with
  | .str "rows" => some .rows
  | .str "columns" => some .columns
  | _ => none

/-- Encoder for the section orientation enum. -/
def encSectionKind : SectionKind → Json
  | .rows => .str "rows"
  | .columns => .str "columns"

/-- The `VirtualSection` entity inferred from `VirtualSectionSchema`. -/
structure VirtualSection where
  id : String
  name : String
  type : SectionKind
  start : Int
  sectionEnd : Int
  color : Option String
deriving DecidableEq

/-- Decoder for `VirtualSectionSchema` (the source field `end` is the
`sectionEnd` field here, `end` being reserved in Lean). -/
def decVirtualSection (j : Json) : Option VirtualSection :=
  match j with
  | .obj fs =>
    obind (reqField fs "id" asStr) fun id =>
    obind (reqField fs "name" asNonemptyStr) fun name =>
    obind (reqField fs "type" decSectionKind) fun type =>
    obind (reqField fs "start" asNonnegInt) fun start =>
    obind (reqField fs "end" asNonnegInt) fun sectionEnd =>
    obind (optField fs "color" asStr) fun color =>
    some ⟨id, name, type, start, sectionEnd, color⟩
  | _ => none

/-- Encoder for a typed `VirtualSection`. -/
def encVirtualSection (v : VirtualSection) : Json :=
  .obj ([("id", .str v.id), ("name", .str v.name), ("type", encSectionKind v.type),
         ("start", .num v.start), ("end", .num v.sectionEnd)]
    ++ optPair "color" (v.color.map .str))

/-- Validity of a typed `VirtualSection`. -/
def validVirtualSection (v : VirtualSection) : Bool :=
  v.name.length ≥ 1 && decide (0 ≤ v.start) && decide (0 ≤ v.sectionEnd)

-- ---------------------------------------------------------------------------
-- Planter (PlanterSchema)
-- ---------------------------------------------------------------------------

/-- The `Planter` entity inferred from `PlanterSchema`. -/
structure Planter where
  id : String
  name : String
  rows : Int
  cols : Int
  squares : Option (List (List PlanterSquare))
  virtualSections : List VirtualSection
  backgroundColor : Option String
  tagline : Option String
deriving DecidableEq

/-- Decoder for `PlanterSchema`. -/
def decPlanter (j : Json) : Option Planter :=
  match j with
  | .obj fs =>
    obind (reqField fs "id" asStr) fun id =>
    obind (reqField fs "name" asNonemptyStr) fun name =>
    obind (reqField fs "rows" asGridDim) fun rows =>
    obind (reqField fs "cols" asGridDim) fun cols =>
    obind (optField fs "squares" (asArr (asArr decPlanterSquare))) fun squares =>
    obind (dfltField fs "virtualSections" (asArr decVirtualSection) []) fun virtualSections =>
    obind (optField fs "backgroundColor" asStr) fun backgroundColor =>
    obind (optField fs "tagline" asStr) fun tagline =>
    some ⟨id, name, rows, cols, squares, virtualSections, backgroundColor, tagline⟩
  | _ => none

/-- Encoder for a typed `Planter`. -/
def encPlanter (p : Planter) : Json :=
  .obj ([("id", .str p.id), ("name", .str p.name), ("rows", .num p.rows),
         ("cols", .num p.cols)]
    ++ optPair "squares" (p.squares.map fun g => .arr (g.map fun r => .arr (r.map encPlanterSquare)))
    ++ [("virtualSections", .arr (p.virtualSections.map encVirtualSection))]
    ++ optPair "backgroundColor" (p.backgroundColor.map .str)
    ++ optPair "tagline" (p.tagline.map .str))

/-- Validity of a typed `Planter`. -/
def validPlanter (p : Planter) : Bool :=
  p.name.length ≥ 1
    && decide (1 ≤ p.rows) && decide (p.rows ≤ 20)
    && decide (1 ≤ p.cols) && decide (p.cols ≤ 20)
    && (match p.squares with
        | none => true
        | some g => g.all fun r => r.all validPlanterSquare)
    && p.virtualSections.all validVirtualSection

-- ---------------------------------------------------------------------------
-- Area (AreaSchema)
-- ---------------------------------------------------------------------------

/-- The `Area` entity inferred from `AreaSchema`. -/
structure Area where
  id : String
  name : String
  tagline : Option String
  backgroundColor : Option String
  planters : List Planter
  profileId : String
deriving DecidableEq

/-- Decoder for `AreaSchema`. -/
def decArea (j : Json) : Option Area :=
  match j with
  | .obj fs =>
    obind (reqField fs "id" asStr) fun id =>
    obind (reqField fs "name" asNonemptyStr) fun name =>
    obind (optField fs "tagline" asStr) fun tagline =>
    obind (optField fs "backgroundColor" asStr) fun backgroundColor =>
    obind (dfltField fs "planters" (asArr decPlanter) []) fun planters =>
    obind (dfltField fs "profileId" asStr "default") fun profileId =>
    some ⟨id, name, tagline, backgroundColor, planters, profileId⟩
  | _ => none

/-- Encoder for a typed `Area`. -/
def encArea (a : Area) : Json :=
  .obj ([("id", .str a.id), ("name", .str a.name)]
    ++ optPair "tagline" (a.tagline.map .str)
    ++ optPair "backgroundColor" (a.backgroundColor.map .str)
    ++ [("planters", .arr (a.planters.map encPlanter)),
        ("profileId", .str a.profileId)])

/-- Validity of a typed `Area`. -/
def validArea (a : Area) : Bool :=
  a.name.length ≥ 1 && a.planters.all validPlanter

-- ---------------------------------------------------------------------------
-- Seedling (SeedlingSchema)
-- ---------------------------------------------------------------------------

/-- The seedling lifecycle enumeration `SeedlingStatusSchema`. -/
inductive SeedlingStatus where
  | germinating | growing | hardening | ready
deriving DecidableEq

/-- Decoder for `SeedlingStatusSchema`. -/
def decSeedlingStatus (j : Json) : Option SeedlingStatus :=
  match j with
  | .str "germinating" => some .germinating
  | .str "growing" => some .growing
  | .str "hardening" => some .hardening
  | .str "ready" => some .ready
  | _ => none

/-- Encoder for `SeedlingStatusSchema`. -/
def encSeedlingStatus : SeedlingStatus → Json
  | .germinating => .str "germinating"
  | .growing => .str "growing"
  | .hardening => .str "hardening"
  | .ready => .str "ready"

/-- The sowing method enumeration of `SeedlingSchema` (the source's
`"direct-sow"` value is the `directSow` constructor). -/
inductive SowMethod where
  | indoor | directSow
deriving DecidableEq

/-- Decoder for the sowing method enum. -/
def decSowMethod (j : Json) : Option SowMethod :=
  match j with
  | .str "indoor" => some .indoor
  | .str "direct-sow" => some .directSow
  | _ => none

/-- Encoder for the sowing method enum. -/
def encSowMethod : SowMethod → Json
  | .indoor => .str "indoor"
  | .directSow => .str "direct-sow"

/-- The `Seedling` entity inferred from `SeedlingSchema`. -/
structure Seedling where
  id : String
  plant : Plant
  plantedDate : String
  seedCount : Int
  location : String
  method : Option SowMethod
  status : SeedlingStatus
deriving DecidableEq

/-- Decoder for `SeedlingSchema`. -/
def decSeedling (j : Json) : Option Seedling :=
  match j with
  | .obj fs =>
    obind (reqField fs "id" asStr) fun id =>
    obind (reqField fs "plant" decPlant) fun plant =>
    obind (reqField fs "plantedDate" asDatetime) fun plantedDate =>
    obind (reqField fs "seedCount" asPosInt) fun seedCount =>
    obind (reqField fs "location" asStr) fun location =>
    obind (optField fs "method" decSowMethod) fun method =>
    obind (reqField fs "status" decSeedlingStatus) fun status =>
    some ⟨id, plant, plantedDate, seedCount, location, method, status⟩
  | _ => none

/-- Encoder for a typed `Seedling`. -/
def encSeedling (s : Seedling) : Json :=
  .obj ([("id", .str s.id), ("plant", encPlant s.plant),
         ("plantedDate", .str s.plantedDate), ("seedCount", .num s.seedCount),
         ("location", .str s.location)]
    ++ optPair "method" (s.method.map encSowMethod)
    ++ [("status", encSeedlingStatus s.status)])

/-- Validity of a typed `Seedling`. -/
def validSeedling (s : Seedling) : Bool :=
  validPlant s.plant && isDatetime s.plantedDate && decide (0 < s.seedCount)

-- ---------------------------------------------------------------------------
-- Settings (AiProviderSchema, SettingsSchema)
-- ---------------------------------------------------------------------------

/-- The tagged AI-provider variant inferred from `AiProviderSchema`. -/
inductive AiProvider where
  | none : AiProvider
  | byok (key : String) : AiProvider
  | proxy (proxyUrl : String) (token : Option String) : AiProvider
deriving DecidableEq

/-- Decoder for `AiProviderSchema` (a discriminated union on the `type`
field). -/
def decAiProvider (j : Json) : Option AiProvider :=
  match j with
  | .obj fs =>
    match lookupField fs "type" with
    | some (.str "none") => some .none
    | some (.str "byok") =>
      obind (reqField fs "key" asNonemptyStr) fun key => some (.byok key)
    | some (.str "proxy") =>
      obind (reqField fs "proxyUrl" asUrl) fun proxyUrl =>
      obind (optField fs "token" asStr) fun token =>
      some (.proxy proxyUrl token)
    | _ => none
  | _ => none

/-- Encoder for a typed `AiProvider`. -/
def encAiProvider : AiProvider → Json
  | .none => .obj [("type", .str "none")]
  | .byok key => .obj [("type", .str "byok"), ("key", .str key)]
  | .proxy proxyUrl token =>
    .obj ([("type", .str "proxy"), ("proxyUrl", .str proxyUrl)]
      ++ optPair "token" (token.map .str))

/-- Validity of a typed `AiProvider`. -/
def validAiProvider : AiProvider → Bool
  | .none => true
  | .byok key => key.length ≥ 1
  | .proxy proxyUrl _ => isUrl proxyUrl

/-- The `Settings` singleton inferred from `SettingsSchema`. -/
structure Settings where
  location : String
  growthZone : String
  weatherProvider : String
  aiProvider : AiProvider
  locale : String
  lat : Option Int
  lng : Option Int
  profileId : String
deriving DecidableEq

/-- Decoder for `SettingsSchema`. -/
def decSettings (j : Json) : Option Settings :=
  match j with
  | .obj fs =>
    obind (dfltField fs "location" asStr "") fun location =>
    obind (dfltField fs "growthZone" asStr "6b") fun growthZone =>
    obind (dfltField fs "weatherProvider" asStr "open-meteo") fun weatherProvider =>
    obind (dfltField fs "aiProvider" decAiProvider .none) fun aiProvider =>
    obind (dfltField fs "locale" asStr "en") fun locale =>
    obind (optField fs "lat" asNum) fun lat =>
    obind (optField fs "lng" asNum) fun lng =>
    obind (dfltField fs "profileId" asStr "default") fun profileId =>
    some ⟨location, growthZone, weatherProvider, aiProvider, locale, lat, lng, profileId⟩
  | _ => none

/-- Encoder for a typed `Settings`. -/
def encSettings (s : Settings) : Json :=
  .obj ([("location", .str s.location), ("growthZone", .str s.growthZone),
         ("weatherProvider", .str s.weatherProvider),
         ("aiProvider", encAiProvider s.aiProvider), ("locale", .str s.locale)]
    ++ optPair "lat" (s.lat.map .num)
    ++ optPair "lng" (s.lng.map .num)
    ++ [("profileId", .str s.profileId)])

/-- Validity of a typed `Settings`. -/
def validSettings (s : Settings) : Bool :=
  validAiProvider s.aiProvider

/-- The documented default settings: what `SettingsSchema.parse({})`
produces. -/
def settingsDefaults : Settings :=
  ⟨"", "6b", "open-meteo", .none, "en", none, none, "default"⟩

-- ---------------------------------------------------------------------------
-- GardenEvent (GardenEventSchema)
-- ---------------------------------------------------------------------------

/-- The event type enumeration `GardenEventTypeSchema`. -/
inductive GardenEventType where
  | planted | watered | composted | weeded | harvested | sown | sprouted
deriving DecidableEq

/-- Decoder for `GardenEventTypeSchema`. -/
def decGardenEventType (j : Json) : Option GardenEventType :=
  match j with
  | .str "planted" => some .planted
  | .str "watered" => some .watered
  | .str "composted" => some .composted
  | .str "weeded" => some .weeded
  | .str "harvested" => some .harvested
  | .str "sown" => some .sown
  | .str "sprouted" => some .sprouted
  | _ => none

/-- Encoder for `GardenEventTypeSchema`. -/
def encGardenEventType : GardenEventType → Json
  | .planted => .str "planted"
  | .watered => .str "watered"
  | .composted => .str "composted"
  | .weeded => .str "weeded"
  | .harvested => .str "harvested"
  | .sown => .str "sown"
  | .sprouted => .str "sprouted"

/-- The `GardenEvent` entity inferred from `GardenEventSchema`. -/
structure GardenEvent where
  id : String
  type : GardenEventType
  plant : Option Plant
  date : String
  gardenId : Option String
  note : Option String
  profileId : String
deriving DecidableEq

/-- Decoder for `GardenEventSchema`. -/
def decGardenEvent (j : Json) : Option GardenEvent :=
  match j with
  | .obj fs =>
    obind (reqField fs "id" asStr) fun id =>
    obind (reqField fs "type" decGardenEventType) fun type =>
    obind (optField fs "plant" decPlant) fun plant =>
    obind (reqField fs "date" asDatetime) fun date =>
    obind (optField fs "gardenId" asStr) fun gardenId =>
    obind (optField fs "note" asStr) fun note =>
    obind (dfltField fs "profileId" asStr "default") fun profileId =>
    some ⟨id, type, plant, date, gardenId, note, profileId⟩
  | _ => none

/-- Encoder for a typed `GardenEvent`. -/
def encGardenEvent (e : GardenEvent) : Json :=
  .obj ([("id", .str e.id), ("type", encGardenEventType e.type)]
    ++ optPair "plant" (e.plant.map encPlant)
    ++ [("date", .str e.date)]
    ++ optPair "gardenId" (e.gardenId.map .str)
    ++ optPair "note" (e.note.map .str)
    ++ [("profileId", .str e.profileId)])

/-- Validity of a typed `GardenEvent`. -/
def validGardenEvent (e : GardenEvent) : Bool :=
  (match e.plant with | none => true | some p => validPlant p) && isDatetime e.date

-- ---------------------------------------------------------------------------
-- localStorage model and the Flat-Store adapter (localStorageRepository.ts)
-- ---------------------------------------------------------------------------

/-- Value stored under a localStorage key: either the parse of a
`JSON.stringify`-produced string, or a present-but-unparsable string. -/
inductive Blob where
  | json (j : Json)
  | garbage

/-- Model of the browser localStorage restricted to the keys this layer
touches.  The five `gp_*` data keys hold serialized blobs; the
`gp_migrated_to_dexie` marker key is only ever written as the literal
string `"1"` and compared against `"1"`, so it is modelled as a Bool. -/
structure LSStore where
  areas : Option Blob
  customPlants : Option Blob
  seedlings : Option Blob
  settings : Option Blob
  events : Option Blob
  migratedToDexie : Bool

/-- The empty localStorage (no key present, marker unset). -/
def emptyLS : LSStore := ⟨none, none, none, none, none, false⟩

/-- Model of `readRaw`: read and JSON-parse a localStorage key; `none` on
a missing key or parse error. -/
def readRaw (b : Option Blob) : Option Json :=
  match b with
  | some (.json j) => some j
  | _ => none

/-- Model of `readArray`: read and validate an array of records.  Each
item is parsed individually — corrupt items are dropped (with a warning in
the source) instead of discarding the entire array; a missing, unparsable
or non-array blob yields the empty list. -/
def readArray (dec : Json → Option α) (b : Option Blob) : List α :=
  match readRaw b with
  | some (.arr xs) => xs.filterMap dec
  | _ => []

/-- Model of the generic `upsert`: replace the item with matching id, or
push at the end if absent. -/
def upsert (cid : α → String) (items : List α) (next : α) : List α :=
  match items.findIdx? (fun x => cid x == cid next) with
  | none => items ++ [next]
  | some idx => items.set idx next

/-- Model of `parseWithDefaults(SettingsSchema, data)`: like `safeParse`
but falling back to `SettingsSchema.parse({})` — the schema defaults —
instead of `null`. -/
def parseWithDefaultsSettings (j : Json) : Settings :=
  match decSettings j with
  | some s => s
  | none =>
    match decSettings (.obj []) with
    | some s => s
    | none => settingsDefaults

/-- Insertion step of the `getEvents` sort: the comparator
`(a, b) => new Date(b.date).getTime() - new Date(a.date).getTime()`
orders events by descending time. -/
def insertEventDesc (e : GardenEvent) : List GardenEvent → List GardenEvent
  | [] => [e]
  | x :: xs =>
    if getTime x.date < getTime e.date then e :: x :: xs
    else x :: insertEventDesc e xs

/-- Model of `events.sort((a, b) => ...)`: sorted newest-first. -/
def sortEventsDesc : List GardenEvent → List GardenEvent
  | [] => []
  | x :: xs => insertEventDesc x (sortEventsDesc xs)

namespace LocalStorage

/-- Model of `LocalStorageRepository.getAreas`. -/
def getAreas (s : LSStore) : List Area :=
  readArray decArea s.areas

/-- Model of `LocalStorageRepository.saveArea`: read-modify-write of the
whole `gp_areas` blob through `upsert`. -/
def saveArea (a : Area) (s : LSStore) : LSStore :=
  { s with areas := some (.json (.arr ((upsert Area.id (getAreas s) a).map encArea))) }

/-- Model of `LocalStorageRepository.deleteArea`. -/
def deleteArea (id : String) (s : LSStore) : LSStore :=
  { s with areas := some (.json (.arr (((getAreas s).filter (fun a => a.id != id)).map encArea))) }

/-- Model of `LocalStorageRepository.getCustomPlants`. -/
def getCustomPlants (s : LSStore) : List Plant :=
  readArray decPlant s.customPlants

/-- Model of `LocalStorageRepository.savePlant`. -/
def savePlant (p : Plant) (s : LSStore) : LSStore :=
  { s with customPlants := some (.json (.arr ((upsert Plant.id (getCustomPlants s) p).map encPlant))) }

/-- Model of `LocalStorageRepository.deletePlant`. -/
def deletePlant (id : String) (s : LSStore) : LSStore :=
  { s with customPlants := some (.json (.arr (((getCustomPlants s).filter (fun p => p.id != id)).map encPlant))) }

/-- Model of `LocalStorageRepository.getSeedlings`. -/
def getSeedlings (s : LSStore) : List Seedling :=
  readArray decSeedling s.seedlings

/-- Model of `LocalStorageRepository.saveSeedling`. -/
def saveSeedling (sd : Seedling) (s : LSStore) : LSStore :=
  { s with seedlings := some (.json (.arr ((upsert Seedling.id (getSeedlings s) sd).map encSeedling))) }

/-- Model of `LocalStorageRepository.deleteSeedling`. -/
def deleteSeedling (id : String) (s : LSStore) : LSStore :=
  { s with seedlings := some (.json (.arr (((getSeedlings s).filter (fun x => x.id != id)).map encSeedling))) }

/-- Model of `LocalStorageRepository.getSettings`:
`parseWithDefaults(SettingsSchema, readRaw(key) ?? {})`. -/
def getSettings (s : LSStore) : Settings :=
  parseWithDefaultsSettings (match readRaw s.settings with
                             | some j => j
                             | none => .obj [])

/-- Model of `LocalStorageRepository.saveSettings`. -/
def saveSettings (st : Settings) (s : LSStore) : LSStore :=
  { s with settings := some (.json (encSettings st)) }

/-- Model of `LocalStorageRepository.getEvents`: validated events sorted
newest-first. -/
def getEvents (s : LSStore) : List GardenEvent :=
  sortEventsDesc (readArray decGardenEvent s.events)

/-- Model of `LocalStorageRepository.saveEvent` (the re-read goes through
`getEvents`, as in the source). -/
def saveEvent (e : GardenEvent) (s : LSStore) : LSStore :=
  { s with events := some (.json (.arr ((upsert GardenEvent.id (getEvents s) e).map encGardenEvent))) }

/-- Model of `LocalStorageRepository.deleteEvent`. -/
def deleteEvent (id : String) (s : LSStore) : LSStore :=
  { s with events := some (.json (.arr (((getEvents s).filter (fun e => e.id != id)).map encGardenEvent))) }

/-- Model of `LocalStorageRepository.clearAll`: removes the five data keys
(the migration marker is not among `KEYS`). -/
def clearAll (s : LSStore) : LSStore :=
  { s with areas := none, customPlants := none, seedlings := none,
           settings := none, events := none }

end LocalStorage

-- ---------------------------------------------------------------------------
-- IndexedDB model and the Indexed-Store adapter (dexieRepository.ts)
-- ---------------------------------------------------------------------------

/-- Replace the row with the given primary key, or append a new row: the
semantics of `Table.put` with an inbound key. -/
def putRow (t : List (String × Json)) (k : String) (v : Json) : List (String × Json) :=
  match t.findIdx? (fun r => r.1 == k) with
  | none => t ++ [(k, v)]
  | some i => t.set i (k, v)

/-- Semantics of `Table.delete`: drop the row with the given key (no-op if
absent). -/
def deleteRow (t : List (String × Json)) (k : String) : List (String × Json) :=
  t.filter (fun r => r.1 != k)

/-- Lexicographic order on code points, the semantics of the string
comparison IndexedDB applies to primary keys (written out over the
character list so that it evaluates). -/
def keyLtList : List Char → List Char → Bool
  | [], [] => false
  | [], _ :: _ => true
  | _ :: _, [] => false
  | a :: as, b :: bs =>
    if a.toNat < b.toNat then true
    else if b.toNat < a.toNat then false
    else keyLtList as bs

/-- Key order on strings. -/
def keyLt (a b : String) : Bool := keyLtList a.toList b.toList

/-- Insertion step for primary-key ordering. -/
def insertRowByKey (r : String × Json) : List (String × Json) → List (String × Json)
  | [] => [r]
  | x :: xs => if keyLt r.1 x.1 then r :: x :: xs else x :: insertRowByKey r xs

/-- IndexedDB returns the rows of an object store in ascending primary-key
order; `Table.toArray` is modelled as this sort of the row list. -/
def sortRowsByKey (t : List (String × Json)) : List (String × Json) :=
  match t with
  | [] => []
  | x :: xs => insertRowByKey x (sortRowsByKey xs)

/-- Model of the `GardenPlannerDB` Dexie database: one row table per
collection plus the single-row settings table (key `"singleton"`).  Rows
hold the structured clone of the saved entity, which for these values
coincides with its JSON image. -/
structure DexieDB where
  areas : List (String × Json)
  customPlants : List (String × Json)
  seedlings : List (String × Json)
  settings : List (String × Json)
  events : List (String × Json)

/-- The freshly opened (empty) database. -/
def emptyDexie : DexieDB := ⟨[], [], [], [], []⟩

namespace Dexie

/-- Model of `DexieRepository.getAreas`: every row of the table, each
validated independently. -/
def getAreas (db : DexieDB) : List Area :=
  ((sortRowsByKey db.areas).map Prod.snd).filterMap decArea

/-- Model of `DexieRepository.saveArea`: `db.areas.put(area)`. -/
def saveArea (a : Area) (db : DexieDB) : DexieDB :=
  { db with areas := putRow db.areas a.id (encArea a) }

/-- Model of `DexieRepository.deleteArea`. -/
def deleteArea (id : String) (db : DexieDB) : DexieDB :=
  { db with areas := deleteRow db.areas id }

/-- Model of `DexieRepository.getCustomPlants`. -/
def getCustomPlants (db : DexieDB) : List Plant :=
  ((sortRowsByKey db.customPlants).map Prod.snd).filterMap decPlant

/-- Model of `DexieRepository.savePlant`. -/
def savePlant (p : Plant) (db : DexieDB) : DexieDB :=
  { db with customPlants := putRow db.customPlants p.id (encPlant p) }

/-- Model of `DexieRepository.deletePlant`. -/
def deletePlant (id : String) (db : DexieDB) : DexieDB :=
  { db with customPlants := deleteRow db.customPlants id }

/-- Model of `DexieRepository.getSeedlings`. -/
def getSeedlings (db : DexieDB) : List Seedling :=
  ((sortRowsByKey db.seedlings).map Prod.snd).filterMap decSeedling

/-- Model of `DexieRepository.saveSeedling`. -/
def saveSeedling (sd : Seedling) (db : DexieDB) : DexieDB :=
  { db with seedlings := putRow db.seedlings sd.id (encSeedling sd) }

/-- Model of `DexieRepository.deleteSeedling`. -/
def deleteSeedling (id : String) (db : DexieDB) : DexieDB :=
  { db with seedlings := deleteRow db.seedlings id }

/-- Model of `DexieRepository.getSettings`:
`parseWithDefaults(SettingsSchema, row?.value ?? {})` for the
`"singleton"` row. -/
def getSettings (db : DexieDB) : Settings :=
  parseWithDefaultsSettings (match lookupField db.settings "singleton" with
                             | some v => v
                             | none => .obj [])

/-- Model of `DexieRepository.saveSettings`:
`db.settings.put({ key: "singleton", value: settings })`. -/
def saveSettings (st : Settings) (db : DexieDB) : DexieDB :=
  { db with settings := putRow db.settings "singleton" (encSettings st) }

/-- Model of `DexieRepository.getEvents`: validated rows sorted
newest-first. -/
def getEvents (db : DexieDB) : List GardenEvent :=
  sortEventsDesc (((sortRowsByKey db.events).map Prod.snd).filterMap decGardenEvent)

/-- Model of `DexieRepository.saveEvent`. -/
def saveEvent (e : GardenEvent) (db : DexieDB) : DexieDB :=
  { db with events := putRow db.events e.id (encGardenEvent e) }

/-- Model of `DexieRepository.deleteEvent`. -/
def deleteEvent (id : String) (db : DexieDB) : DexieDB :=
  { db with events := deleteRow db.events id }

/-- Model of `DexieRepository.clearAll`. -/
def clearAll (_db : DexieDB) : DexieDB := emptyDexie

end Dexie

-- ---------------------------------------------------------------------------
-- Migration procedure (migration.ts)
-- ---------------------------------------------------------------------------

/-- Model of `readLegacyArray`: read a legacy key, tolerate a missing,
empty, unparsable or non-array value as the empty list, and validate each
element independently. -/
def readLegacyArray (dec : Json → Option α) (b : Option Blob) : List α :=
  match b with
  | some (.json (.arr xs)) => xs.filterMap dec
  | _ => []

/-- Resolution of the legacy settings blob inside the migration: start
from `{}`, take the parsed stored value when present and parsable, then
apply `parseWithDefaults`. -/
def readLegacySettings (b : Option Blob) : Settings :=
  parseWithDefaultsSettings (match b with
                             | some (.json j) => j
                             | _ => .obj [])

/-- One destination write issued by the migration (an element of the
`Promise.all` array, in order). -/
inductive MigWrite where
  | area (a : Area)
  | plant (p : Plant)
  | seedling (s : Seedling)
  | event (e : GardenEvent)
  | settings (s : Settings)

/-- The destination writes the migration issues for a given legacy store,
in the order they are assembled into `Promise.all`. -/
def migrationWrites (ls : LSStore) : List MigWrite :=
  (readLegacyArray decArea ls.areas).map .area
    ++ (readLegacyArray decPlant ls.customPlants).map .plant
    ++ (readLegacyArray decSeedling ls.seedlings).map .seedling
    ++ (readLegacyArray decGardenEvent ls.events).map .event
    ++ [.settings (readLegacySettings ls.settings)]

/-- Effect of one destination write on the database (each goes through the
repository's normal save methods). -/
def applyMigWrite (w : MigWrite) (db : DexieDB) : DexieDB :=
  match w with
  | .area a => Dexie.saveArea a db
  | .plant p => Dexie.savePlant p db
  | .seedling s => Dexie.saveSeedling s db
  | .event e => Dexie.saveEvent e db
  | .settings s => Dexie.saveSettings s db

/-- Apply the destination writes under a fault oracle: `fail i` means the
i-th write rejects, leaving its table untouched; fulfilled writes apply
normally (`Promise.all` does not cancel siblings of a rejected write). -/
def applyMigWrites (fail : Nat → Bool) : Nat → List MigWrite → DexieDB → DexieDB
  | _, [], db => db
  | i, w :: ws, db =>
    applyMigWrites fail (i + 1) ws (if fail i then db else applyMigWrite w db)

/-- Model of `migrateLocalStorageToDexie`.  The result is
`(completed, localStorage after the run, database after the run)`:
`completed = false` means the awaited `Promise.all` rejected, so the
function threw before the marker assignment and legacy-key cleanup ran. -/
def migrateLocalStorageToDexie (fail : Nat → Bool) (ls : LSStore) (db : DexieDB) :
    Bool × LSStore × DexieDB :=
  if ls.migratedToDexie then (true, ls, db)
  else
    let ws := migrationWrites ls
    let db2 := applyMigWrites fail 0 ws db
    if (List.range ws.length).any fail then (false, ls, db2)
    else
      (true,
       { areas := none, customPlants := none, seedlings := none,
         settings := none, events := none, migratedToDexie := true },
       db2)

-- ---------------------------------------------------------------------------
-- Helper lemmas: field lookup and element-wise array decoding
-- ---------------------------------------------------------------------------

@[simp] theorem lookupField_nil (k : String) : lookupField [] k = none := rfl

@[simp] theorem lookupField_cons (k' : String) (v : Json) (l : List (String × Json))
    (k : String) :
    lookupField ((k', v) :: l) k = if k' == k then some v else lookupField l k := rfl

@[simp] theorem lookupField_append (l1 l2 : List (String × Json)) (k : String) :
    lookupField (l1 ++ l2) k = (lookupField l1 k).or (lookupField l2 k) := by
  induction l1 with
  | nil => simp [lookupField]
  | cons f rest ih =>
    by_cases h : f.1 == k <;> simp [lookupField, h, ih]

@[simp] theorem lookupField_optPair (k' k : String) (v : Option Json) :
    lookupField (optPair k' v) k = if k' == k then v else none := by
  cases v with
  | none => simp [optPair]
  | some j => simp [optPair, lookupField]

theorem optField_cons_ne {k' k : String} (h : (k' == k) = false) (v : Json)
    (rest : List (String × Json)) (f : Json → Option α) :
    optField ((k', v) :: rest) k f = optField rest k f := by
  simp [optField, lookupField, h]

theorem optField_append_optPair_ne {k' k : String} (h : (k' == k) = false)
    (v : Option Json) (rest : List (String × Json)) (f : Json → Option α) :
    optField (optPair k' v ++ rest) k f = optField rest k f := by
  cases v with
  | none => simp [optPair]
  | some j => simp [optPair, optField, lookupField, h]

theorem optField_optPair_here (k : String) (v : Option α) (g : α → Json)
    (f : Json → Option α) (rest : List (String × Json))
    (hr : lookupField rest k = none)
    (hf : ∀ a, v = some a → f (g a) = some a) :
    optField (optPair k (v.map g) ++ rest) k f = some v := by
  cases v with
  | none => simp [optPair, optField, hr]
  | some a => simp [optPair, optField, lookupField, hf a rfl]

theorem optField_not_found {fs : List (String × Json)} {k : String}
    (f : Json → Option α) (hr : lookupField fs k = none) :
    optField fs k f = some none := by
  simp [optField, hr]

theorem optField_optPair_some_val (k : String) (j : Json) (f : Json → Option α)
    (rest : List (String × Json)) (b : α) (hf : f j = some b) :
    optField (optPair k (some j) ++ rest) k f = some (some b) := by
  simp [optPair, optField, lookupField, hf]

/-- Element-wise decoding succeeds on an encoded list when every element
decodes back to itself. -/
theorem decList_roundtrip (f : Json → Option α) (g : α → Json) (l : List α)
    (hf : ∀ x ∈ l, f (g x) = some x) : decList f (l.map g) = some l := by
  induction l with
  | nil => rfl
  | cons x xs ih =>
    simp only [List.map_cons, decList, hf x (List.mem_cons_self x xs)]
    rw [ih (fun y hy => hf y (List.mem_cons_of_mem x hy))]

/-- Every entity produced by element-wise decoding satisfies any property
the element decoder guarantees. -/
theorem decList_sound {f : Json → Option α} {P : α → Prop}
    (hP : ∀ j a, f j = some a → P a) :
    ∀ {xs : List Json} {l : List α}, decList f xs = some l → ∀ a ∈ l, P a := by
  intro xs
  induction xs with
  | nil => intro l h a ha; simp [decList] at h; subst h; simp at ha
  | cons x rest ih =>
    intro l h a ha
    simp only [decList] at h
    cases hx : f x with
    | none => rw [hx] at h; exact absurd h (by simp)
    | some b =>
      rw [hx] at h
      cases hr : decList f rest with
      | none => rw [hr] at h; exact absurd h (by simp)
      | some bs =>
        rw [hr] at h
        cases h
        rcases List.mem_cons.mp ha with h1 | h2
        · exact h1 ▸ hP x b hx
        · exact ih hr a h2

-- ---------------------------------------------------------------------------
-- Round-trip lemmas: a valid typed entity re-validates to itself
-- ---------------------------------------------------------------------------

@[simp] theorem decSunRequirement_enc (s : SunRequirement) :
    decSunRequirement (encSunRequirement s) = some s := by cases s <;> rfl

@[simp] theorem decPlantSource_enc (s : PlantSource) :
    decPlantSource (encPlantSource s) = some s := by cases s <;> rfl

@[simp] theorem decSectionKind_enc (s : SectionKind) :
    decSectionKind (encSectionKind s) = some s := by cases s <;> rfl

@[simp] theorem decSeedlingStatus_enc (s : SeedlingStatus) :
    decSeedlingStatus (encSeedlingStatus s) = some s := by cases s <;> rfl

@[simp] theorem decSowMethod_enc (s : SowMethod) :
    decSowMethod (encSowMethod s) = some s := by cases s <;> rfl

@[simp] theorem decGardenEventType_enc (t : GardenEventType) :
    decGardenEventType (encGardenEventType t) = some t := by cases t <;> rfl

@[simp] theorem decPestKind_enc (b : Bool) :
    decPestKind (encPestKind b) = some b := by cases b <;> rfl

/-- Round-trip for plants: validation recovers a valid plant from its
serialized image. -/
theorem decPlant_encPlant : ∀ (p : Plant), validPlant p = true →
    decPlant (encPlant p) = some p := by
  rintro ⟨id, name, color, icon, description, variety, daysToHarvest, isSeed,
    amount, spacingCm, frostHardy, companions, antagonists, m1, m2, m3, sun, src⟩ h
  simp only [validPlant, Bool.and_eq_true, List.all_eq_true,
    decide_eq_true_eq, ge_iff_le] at h
  obtain ⟨⟨⟨⟨⟨⟨hname, hdth⟩, hamt⟩, hspc⟩, hm1⟩, hm2⟩, hm3⟩ := h
  have hdthA : ∀ n, daysToHarvest = some n → 0 < n := by
    intro n hn; subst hn; simpa using hdth
  have hamtA : ∀ n, amount = some n → 0 ≤ n := by
    intro n hn; subst hn; simpa using hamt
  have hspcA : ∀ n, spacingCm = some n → 0 < n := by
    intro n hn; subst hn; simpa using hspc
  have hc1 : decList asStr (companions.map Json.str) = some companions :=
    decList_roundtrip _ _ _ (fun x _ => rfl)
  have hc2 : decList asStr (antagonists.map Json.str) = some antagonists :=
    decList_roundtrip _ _ _ (fun x _ => rfl)
  have hmm1 : decList asMonth (m1.map Json.num) = some m1 :=
    decList_roundtrip _ _ _ (fun n hn => by
      have := hm1 n hn
      simp only [Bool.and_eq_true, decide_eq_true_eq] at this
      simp [asMonth, asNum, this])
  have hmm2 : decList asMonth (m2.map Json.num) = some m2 :=
    decList_roundtrip _ _ _ (fun n hn => by
      have := hm2 n hn
      simp only [Bool.and_eq_true, decide_eq_true_eq] at this
      simp [asMonth, asNum, this])
  have hmm3 : decList asMonth (m3.map Json.num) = some m3 :=
    decList_roundtrip _ _ _ (fun n hn => by
      have := hm3 n hn
      simp only [Bool.and_eq_true, decide_eq_true_eq] at this
      simp [asMonth, asNum, this])
  cases daysToHarvest <;> cases amount <;> cases spacingCm <;>
    simp [decPlant, encPlant, reqField, dfltField, optField_cons_ne,
      optField_append_optPair_ne, optField_optPair_here, optField_not_found,
      optField_optPair_some_val,
      asStr, asNonemptyStr, asBool, asNum, asPosInt, asNonnegInt, asArr,
      hname, hdthA, hamtA, hspcA, hc1, hc2, hmm1, hmm2, hmm3]

/-- Round-trip for pest events. -/
theorem decPestEvent_enc : ∀ (e : PestEvent), validPestEvent e = true →
    decPestEvent (encPestEvent e) = some e := by
  rintro ⟨id, date, type, description⟩ h
  simp only [validPestEvent] at h
  simp [decPestEvent, encPestEvent, reqField, asStr, asDatetime, obind, h]

/-- Round-trip for virtual sections. -/
theorem decVirtualSection_enc : ∀ (v : VirtualSection), validVirtualSection v = true →
    decVirtualSection (encVirtualSection v) = some v := by
  rintro ⟨id, name, type, start, sectionEnd, color⟩ h
  simp only [validVirtualSection, Bool.and_eq_true, decide_eq_true_eq, ge_iff_le] at h
  obtain ⟨⟨hname, hstart⟩, hend⟩ := h
  cases color <;>
    simp [decVirtualSection, encVirtualSection, reqField, optField, optPair,
      asStr, asNonemptyStr, asNum, asNonnegInt, obind, hname, hstart, hend]

/-- Round-trip for plant instances. -/
theorem decPlantInstance_enc : ∀ (pi : PlantInstance), validPlantInstance pi = true →
    decPlantInstance (encPlantInstance pi) = some pi := by
  rintro ⟨instanceId, plant, plantingDate, harvestDate, variety, pestEvents⟩ h
  simp only [validPlantInstance, Bool.and_eq_true, List.all_eq_true] at h
  obtain ⟨⟨⟨hp, hpd⟩, hhd⟩, hpe⟩ := h
  have hplant : decPlant (encPlant plant) = some plant := decPlant_encPlant plant hp
  have hpdA : ∀ d, plantingDate = some d → isDatetime d = true := by
    intro d hd; subst hd; simpa using hpd
  have hhdA : ∀ d, harvestDate = some d → isDatetime d = true := by
    intro d hd; subst hd; simpa using hhd
  have hpes : decList decPestEvent (pestEvents.map encPestEvent) = some pestEvents :=
    decList_roundtrip _ _ _ (fun e he => decPestEvent_enc e (hpe e he))
  cases plantingDate <;> cases harvestDate <;> cases variety <;>
    simp [decPlantInstance, encPlantInstance, reqField, optField, dfltField, optPair,
      asStr, asDatetime, asArr, obind, hplant, hpdA, hhdA, hpes]

/-- Round-trip for planter squares. -/
theorem decPlanterSquare_enc : ∀ (s : PlanterSquare), validPlanterSquare s = true →
    decPlanterSquare (encPlanterSquare s) = some s := by
  rintro ⟨pi⟩ h
  simp only [validPlanterSquare] at h
  cases hpi : pi with
  | none => simp [decPlanterSquare, encPlanterSquare, reqField, asNullable, obind]
  | some p =>
    rw [hpi] at h
    have hv := decPlantInstance_enc p h
    unfold encPlantInstance at hv
    simp only [List.cons_append, List.nil_append, List.append_assoc] at hv
    simp [decPlanterSquare, encPlanterSquare, reqField, asNullable, obind,
      encPlantInstance, hv]

/-- Round-trip for planters. -/
theorem decPlanter_enc : ∀ (p : Planter), validPlanter p = true →
    decPlanter (encPlanter p) = some p := by
  rintro ⟨id, name, rows, cols, squares, virtualSections, backgroundColor, tagline⟩ h
  simp only [validPlanter, Bool.and_eq_true, List.all_eq_true, decide_eq_true_eq,
    ge_iff_le] at h
  obtain ⟨⟨⟨⟨⟨⟨hname, hr1⟩, hr2⟩, hc1⟩, hc2⟩, hsq⟩, hvs⟩ := h
  have hvsd : decList decVirtualSection (virtualSections.map encVirtualSection) =
      some virtualSections :=
    decList_roundtrip _ _ _ (fun v hv => decVirtualSection_enc v (hvs v hv))
  have hsqA : ∀ g, squares = some g →
      decList (asArr decPlanterSquare)
        (g.map fun r => Json.arr (r.map encPlanterSquare)) = some g := by
    intro g hg
    subst hg
    simp only [List.all_eq_true] at hsq
    refine decList_roundtrip _ _ _ (fun r hr => ?_)
    have : decList decPlanterSquare (r.map encPlanterSquare) = some r :=
      decList_roundtrip _ _ _ (fun sq hs => by
        have := hsq r hr
        simp only [List.all_eq_true] at this
        exact decPlanterSquare_enc sq (this sq hs))
    simp [asArr, this]
  cases squares <;> cases backgroundColor <;> cases tagline <;>
    simp [decPlanter, encPlanter, reqField, optField, dfltField, optPair,
      asStr, asNonemptyStr, asNum, asGridDim, asArr, obind,
      hname, hr1, hr2, hc1, hc2, hvsd, hsqA]

/-- Round-trip for areas. -/
theorem decArea_enc : ∀ (a : Area), validArea a = true →
    decArea (encArea a) = some a := by
  rintro ⟨id, name, tagline, backgroundColor, planters, profileId⟩ h
  simp only [validArea, Bool.and_eq_true, List.all_eq_true, decide_eq_true_eq,
    ge_iff_le] at h
  obtain ⟨hname, hps⟩ := h
  have hpd : decList decPlanter (planters.map encPlanter) = some planters :=
    decList_roundtrip _ _ _ (fun p hp => decPlanter_enc p (hps p hp))
  cases tagline <;> cases backgroundColor <;>
    simp [decArea, encArea, reqField, optField, dfltField, optPair,
      asStr, asNonemptyStr, asArr, obind, hname, hpd]

/-- Round-trip for seedlings. -/
theorem decSeedling_enc : ∀ (s : Seedling), validSeedling s = true →
    decSeedling (encSeedling s) = some s := by
  rintro ⟨id, plant, plantedDate, seedCount, location, method, status⟩ h
  simp only [validSeedling, Bool.and_eq_true, decide_eq_true_eq] at h
  obtain ⟨⟨hp, hd⟩, hc⟩ := h
  have hplant : decPlant (encPlant plant) = some plant := decPlant_encPlant plant hp
  cases method <;>
    simp [decSeedling, encSeedling, reqField, optField, optPair,
      asStr, asDatetime, asNum, asPosInt, obind, hplant, hd, hc]

/-- Round-trip for the AI provider variant. -/
theorem decAiProvider_enc : ∀ (p : AiProvider), validAiProvider p = true →
    decAiProvider (encAiProvider p) = some p := by
  intro p h
  cases p with
  | none => rfl
  | byok key =>
    simp only [validAiProvider, decide_eq_true_eq, ge_iff_le] at h
    simp [decAiProvider, encAiProvider, reqField, asNonemptyStr, asStr, obind, h]
  | proxy proxyUrl token =>
    simp only [validAiProvider] at h
    cases token <;>
      simp [decAiProvider, encAiProvider, reqField, optField, optPair,
        asUrl, asStr, obind, h]

/-- Round-trip for settings. -/
theorem decSettings_enc : ∀ (s : Settings), validSettings s = true →
    decSettings (encSettings s) = some s := by
  rintro ⟨location, growthZone, weatherProvider, aiProvider, locale, lat, lng, profileId⟩ h
  simp only [validSettings] at h
  have hai : decAiProvider (encAiProvider aiProvider) = some aiProvider :=
    decAiProvider_enc aiProvider h
  cases lat <;> cases lng <;>
    simp [decSettings, encSettings, reqField, optField, dfltField, optPair,
      asStr, asNum, obind, hai]

/-- Round-trip for garden events. -/
theorem decGardenEvent_enc : ∀ (e : GardenEvent), validGardenEvent e = true →
    decGardenEvent (encGardenEvent e) = some e := by
  rintro ⟨id, type, plant, date, gardenId, note, profileId⟩ h
  simp only [validGardenEvent, Bool.and_eq_true] at h
  obtain ⟨hp, hd⟩ := h
  have hpA : ∀ q, plant = some q → decPlant (encPlant q) = some q := by
    intro q hq
    subst hq
    exact decPlant_encPlant q (by simpa using hp)
  cases plant <;> cases gardenId <;> cases note <;>
    simp [decGardenEvent, encGardenEvent, reqField, optField, dfltField, optPair,
      asStr, asDatetime, obind, hpA, hd]

-- ---------------------------------------------------------------------------
-- Soundness lemmas: everything a decoder returns is valid
-- ---------------------------------------------------------------------------

/-- Refinement decoders (`bind` into a guard) only return values satisfying
the guard. -/
theorem bind_if_eq_some {o : Option α} {P : α → Prop} [DecidablePred P] {a : α}
    (h : (o.bind fun x => if P x then some x else none) = some a) : P a := by
  cases o with
  | none => simp at h
  | some b =>
    simp only [Option.some_bind] at h
    by_cases hP : P b
    · rw [if_pos hP] at h
      cases h
      exact hP
    · rw [if_neg hP] at h
      exact absurd h (by simp)

theorem asNonemptyStr_sound {j : Json} {s : String}
    (h : asNonemptyStr j = some s) : 1 ≤ s.length := by
  unfold asNonemptyStr at h
  exact bind_if_eq_some (P := fun x : String => x.length ≥ 1) h

theorem asPosInt_sound {j : Json} {n : Int} (h : asPosInt j = some n) : 0 < n := by
  unfold asPosInt at h
  exact bind_if_eq_some h

theorem asNonnegInt_sound {j : Json} {n : Int} (h : asNonnegInt j = some n) : 0 ≤ n := by
  unfold asNonnegInt at h
  exact bind_if_eq_some h

theorem asMonth_sound {j : Json} {n : Int} (h : asMonth j = some n) :
    1 ≤ n ∧ n ≤ 12 := by
  unfold asMonth at h
  exact bind_if_eq_some (P := fun x => 1 ≤ x ∧ x ≤ 12) h

theorem asGridDim_sound {j : Json} {n : Int} (h : asGridDim j = some n) :
    1 ≤ n ∧ n ≤ 20 := by
  unfold asGridDim at h
  exact bind_if_eq_some (P := fun x => 1 ≤ x ∧ x ≤ 20) h

theorem asDatetime_sound {j : Json} {s : String}
    (h : asDatetime j = some s) : isDatetime s = true := by
  unfold asDatetime at h
  exact bind_if_eq_some (P := fun t => isDatetime t = true) h

theorem asUrl_sound {j : Json} {s : String}
    (h : asUrl j = some s) : isUrl s = true := by
  unfold asUrl at h
  exact bind_if_eq_some (P := fun t => isUrl t = true) h

theorem reqField_sound {fs : List (String × Json)} {k : String} {f : Json → Option α}
    {P : α → Prop} (hf : ∀ j a, f j = some a → P a) {a : α}
    (h : reqField fs k f = some a) : P a := by
  unfold reqField at h
  cases hl : lookupField fs k with
  | none => rw [hl] at h; simp at h
  | some j => rw [hl] at h; exact hf j a h

theorem optField_sound {fs : List (String × Json)} {k : String} {f : Json → Option α}
    {P : α → Prop} (hf : ∀ j a, f j = some a → P a) {v : Option α}
    (h : optField fs k f = some v) : ∀ a, v = some a → P a := by
  unfold optField at h
  cases hl : lookupField fs k with
  | none =>
    rw [hl] at h
    cases h
    intro a ha
    cases ha
  | some j =>
    rw [hl] at h
    simp only [Option.map_eq_some'] at h
    obtain ⟨b, hfb, hbv⟩ := h
    subst hbv
    intro a ha
    cases ha
    exact hf j b hfb

theorem dfltField_sound {fs : List (String × Json)} {k : String} {f : Json → Option α}
    {P : α → Prop} (hf : ∀ j a, f j = some a → P a) {d : α} (hd : P d) {a : α}
    (h : dfltField fs k f d = some a) : P a := by
  unfold dfltField at h
  cases hl : lookupField fs k with
  | none => rw [hl] at h; cases h; exact hd
  | some j => rw [hl] at h; exact hf j a h

theorem asArr_sound {f : Json → Option α} {P : α → Prop}
    (hf : ∀ j a, f j = some a → P a) {j : Json} {l : List α}
    (h : asArr f j = some l) : ∀ a ∈ l, P a := by
  cases j with
  | arr xs => exact decList_sound hf h
  | null => simp [asArr] at h
  | bool b => simp [asArr] at h
  | num n => simp [asArr] at h
  | str s => simp [asArr] at h
  | obj fs => simp [asArr] at h

/-- Everything `decPlant` accepts is a valid plant. -/
theorem decPlant_sound {j : Json} {p : Plant} (h : decPlant j = some p) :
    validPlant p = true := by
  cases j with
  | obj fs =>
    simp only [decPlant] at h
    obtain ⟨id, hid, h⟩ := obind_eq_some h
    obtain ⟨name, hname, h⟩ := obind_eq_some h
    obtain ⟨color, hcolor, h⟩ := obind_eq_some h
    obtain ⟨icon, hicon, h⟩ := obind_eq_some h
    obtain ⟨description, hdesc, h⟩ := obind_eq_some h
    obtain ⟨variety, hvar, h⟩ := obind_eq_some h
    obtain ⟨daysToHarvest, hdth, h⟩ := obind_eq_some h
    obtain ⟨isSeed, hseed, h⟩ := obind_eq_some h
    obtain ⟨amount, hamt, h⟩ := obind_eq_some h
    obtain ⟨spacingCm, hspc, h⟩ := obind_eq_some h
    obtain ⟨frostHardy, hfh, h⟩ := obind_eq_some h
    obtain ⟨companions, hcomp, h⟩ := obind_eq_some h
    obtain ⟨antagonists, hant, h⟩ := obind_eq_some h
    obtain ⟨m1, hm1, h⟩ := obind_eq_some h
    obtain ⟨m2, hm2, h⟩ := obind_eq_some h
    obtain ⟨m3, hm3, h⟩ := obind_eq_some h
    obtain ⟨sun, hsun, h⟩ := obind_eq_some h
    obtain ⟨src, hsrc, h⟩ := obind_eq_some h
    cases h
    simp only [validPlant, Bool.and_eq_true, List.all_eq_true, decide_eq_true_eq,
      ge_iff_le]
    refine ⟨⟨⟨⟨⟨⟨?_, ?_⟩, ?_⟩, ?_⟩, ?_⟩, ?_⟩, ?_⟩
    · exact reqField_sound (fun j a ha => asNonemptyStr_sound ha) hname
    · cases daysToHarvest with
      | none => rfl
      | some n =>
        simpa using optField_sound (fun j a ha => asPosInt_sound ha) hdth n rfl
    · cases amount with
      | none => rfl
      | some n =>
        simpa using optField_sound (fun j a ha => asNonnegInt_sound ha) hamt n rfl
    · cases spacingCm with
      | none => rfl
      | some n =>
        simpa using optField_sound (fun j a ha => asPosInt_sound ha) hspc n rfl
    · intro n hn
      have := dfltField_sound (P := fun l => ∀ x ∈ l, 1 ≤ x ∧ x ≤ 12)
        (fun j a ha => asArr_sound (fun j' a' ha' => asMonth_sound ha') ha)
        (by intro x hx; cases hx) hm1 n hn
      simpa using this
    · intro n hn
      have := dfltField_sound (P := fun l => ∀ x ∈ l, 1 ≤ x ∧ x ≤ 12)
        (fun j a ha => asArr_sound (fun j' a' ha' => asMonth_sound ha') ha)
        (by intro x hx; cases hx) hm2 n hn
      simpa using this
    · intro n hn
      have := dfltField_sound (P := fun l => ∀ x ∈ l, 1 ≤ x ∧ x ≤ 12)
        (fun j a ha => asArr_sound (fun j' a' ha' => asMonth_sound ha') ha)
        (by intro x hx; cases hx) hm3 n hn
      simpa using this
  | null => simp [decPlant] at h
  | bool b => simp [decPlant] at h
  | num n => simp [decPlant] at h
  | str s => simp [decPlant] at h
  | arr xs => simp [decPlant] at h

/-- Soundness for the nullable combinator. -/
theorem asNullable_sound {f : Json → Option α} {P : α → Prop}
    (hf : ∀ j a, f j = some a → P a) {j : Json} {v : Option α}
    (h : asNullable f j = some v) : ∀ a, v = some a → P a := by
  intro a ha
  subst ha
  unfold asNullable at h
  cases j
  case null => simp at h
  all_goals
    simp only [Option.map_eq_some', Option.some.injEq] at h
  all_goals
    obtain ⟨c, hc, rfl⟩ := h
  all_goals
    exact hf _ _ hc

/-- Everything `decPestEvent` accepts is a valid pest event. -/
theorem decPestEvent_sound {j : Json} {e : PestEvent} (h : decPestEvent j = some e) :
    validPestEvent e = true := by
  cases j with
  | obj fs =>
    simp only [decPestEvent] at h
    obtain ⟨id, hid, h⟩ := obind_eq_some h
    obtain ⟨date, hdate, h⟩ := obind_eq_some h
    obtain ⟨type, htype, h⟩ := obind_eq_some h
    obtain ⟨descr, hdescr, h⟩ := obind_eq_some h
    cases h
    simpa [validPestEvent] using
      reqField_sound (fun j a ha => asDatetime_sound ha) hdate
  | null => simp [decPestEvent] at h
  | bool b => simp [decPestEvent] at h
  | num n => simp [decPestEvent] at h
  | str s => simp [decPestEvent] at h
  | arr xs => simp [decPestEvent] at h

/-- Everything `decVirtualSection` accepts is a valid section. -/
theorem decVirtualSection_sound {j : Json} {v : VirtualSection}
    (h : decVirtualSection j = some v) : validVirtualSection v = true := by
  cases j with
  | obj fs =>
    simp only [decVirtualSection] at h
    obtain ⟨id, hid, h⟩ := obind_eq_some h
    obtain ⟨name, hname, h⟩ := obind_eq_some h
    obtain ⟨type, htype, h⟩ := obind_eq_some h
    obtain ⟨start, hstart, h⟩ := obind_eq_some h
    obtain ⟨send, hsend, h⟩ := obind_eq_some h
    obtain ⟨color, hcolor, h⟩ := obind_eq_some h
    cases h
    simp only [validVirtualSection, Bool.and_eq_true, decide_eq_true_eq, ge_iff_le]
    exact ⟨⟨reqField_sound (fun j a ha => asNonemptyStr_sound ha) hname,
      reqField_sound (fun j a ha => asNonnegInt_sound ha) hstart⟩,
      reqField_sound (fun j a ha => asNonnegInt_sound ha) hsend⟩
  | null => simp [decVirtualSection] at h
  | bool b => simp [decVirtualSection] at h
  | num n => simp [decVirtualSection] at h
  | str s => simp [decVirtualSection] at h
  | arr xs => simp [decVirtualSection] at h

/-- Everything `decPlantInstance` accepts is a valid plant instance. -/
theorem decPlantInstance_sound {j : Json} {pi : PlantInstance}
    (h : decPlantInstance j = some pi) : validPlantInstance pi = true := by
  cases j with
  | obj fs =>
    simp only [decPlantInstance] at h
    obtain ⟨iid, hiid, h⟩ := obind_eq_some h
    obtain ⟨plant, hplant, h⟩ := obind_eq_some h
    obtain ⟨pd, hpd, h⟩ := obind_eq_some h
    obtain ⟨hd, hhd, h⟩ := obind_eq_some h
    obtain ⟨var, hvar, h⟩ := obind_eq_some h
    obtain ⟨pes, hpes, h⟩ := obind_eq_some h
    cases h
    simp only [validPlantInstance, Bool.and_eq_true, List.all_eq_true]
    refine ⟨⟨⟨?_, ?_⟩, ?_⟩, ?_⟩
    · exact reqField_sound (fun j a ha => decPlant_sound ha) hplant
    · cases pd with
      | none => rfl
      | some d =>
        simpa using optField_sound (fun j a ha => asDatetime_sound ha) hpd d rfl
    · cases hd with
      | none => rfl
      | some d =>
        simpa using optField_sound (fun j a ha => asDatetime_sound ha) hhd d rfl
    · exact dfltField_sound (P := fun l => ∀ x ∈ l, validPestEvent x = true)
        (fun j a ha => asArr_sound (fun j' a' ha' => decPestEvent_sound ha') ha)
        (by intro x hx; cases hx) hpes
  | null => simp [decPlantInstance] at h
  | bool b => simp [decPlantInstance] at h
  | num n => simp [decPlantInstance] at h
  | str s => simp [decPlantInstance] at h
  | arr xs => simp [decPlantInstance] at h

/-- Everything `decPlanterSquare` accepts is a valid square. -/
theorem decPlanterSquare_sound {j : Json} {s : PlanterSquare}
    (h : decPlanterSquare j = some s) : validPlanterSquare s = true := by
  cases j with
  | obj fs =>
    simp only [decPlanterSquare] at h
    obtain ⟨pi, hpi, h⟩ := obind_eq_some h
    cases h
    simp only [validPlanterSquare]
    cases hv : pi with
    | none => rfl
    | some q =>
      have hall := reqField_sound
        (P := fun v : Option PlantInstance => ∀ a, v = some a → validPlantInstance a = true)
        (fun j v hv' => asNullable_sound (fun j' a' ha' => decPlantInstance_sound ha') hv')
        hpi
      exact hall q hv
  | null => simp [decPlanterSquare] at h
  | bool b => simp [decPlanterSquare] at h
  | num n => simp [decPlanterSquare] at h
  | str s => simp [decPlanterSquare] at h
  | arr xs => simp [decPlanterSquare] at h

/-- Everything `decPlanter` accepts is a valid planter. -/
theorem decPlanter_sound {j : Json} {p : Planter} (h : decPlanter j = some p) :
    validPlanter p = true := by
  cases j with
  | obj fs =>
    simp only [decPlanter] at h
    obtain ⟨id, hid, h⟩ := obind_eq_some h
    obtain ⟨name, hname, h⟩ := obind_eq_some h
    obtain ⟨rows, hrows, h⟩ := obind_eq_some h
    obtain ⟨cols, hcols, h⟩ := obind_eq_some h
    obtain ⟨squares, hsq, h⟩ := obind_eq_some h
    obtain ⟨vs, hvs, h⟩ := obind_eq_some h
    obtain ⟨bg, hbg, h⟩ := obind_eq_some h
    obtain ⟨tg, htg, h⟩ := obind_eq_some h
    cases h
    simp only [validPlanter, Bool.and_eq_true, List.all_eq_true, decide_eq_true_eq,
      ge_iff_le]
    have hrows' := reqField_sound (fun j a ha => asGridDim_sound ha) hrows
    have hcols' := reqField_sound (fun j a ha => asGridDim_sound ha) hcols
    refine ⟨⟨⟨⟨⟨⟨reqField_sound (fun j a ha => asNonemptyStr_sound ha) hname,
      hrows'.1⟩, hrows'.2⟩, hcols'.1⟩, hcols'.2⟩, ?_⟩, ?_⟩
    · cases squares with
      | none => rfl
      | some g =>
        have := optField_sound
          (P := fun gr => ∀ r ∈ gr, ∀ sq ∈ r, validPlanterSquare sq = true)
          (fun j a ha =>
            asArr_sound (fun j' a' ha' =>
              asArr_sound (fun j'' a'' ha'' => decPlanterSquare_sound ha'') ha') ha)
          hsq g rfl
        simpa [List.all_eq_true] using this
    · exact dfltField_sound (P := fun l => ∀ x ∈ l, validVirtualSection x = true)
        (fun j a ha => asArr_sound (fun j' a' ha' => decVirtualSection_sound ha') ha)
        (by intro x hx; cases hx) hvs
  | null => simp [decPlanter] at h
  | bool b => simp [decPlanter] at h
  | num n => simp [decPlanter] at h
  | str s => simp [decPlanter] at h
  | arr xs => simp [decPlanter] at h

/-- Everything `decArea` accepts is a valid area. -/
theorem decArea_sound {j : Json} {a : Area} (h : decArea j = some a) :
    validArea a = true := by
  cases j with
  | obj fs =>
    simp only [decArea] at h
    obtain ⟨id, hid, h⟩ := obind_eq_some h
    obtain ⟨name, hname, h⟩ := obind_eq_some h
    obtain ⟨tg, htg, h⟩ := obind_eq_some h
    obtain ⟨bg, hbg, h⟩ := obind_eq_some h
    obtain ⟨ps, hps, h⟩ := obind_eq_some h
    obtain ⟨pid, hpid, h⟩ := obind_eq_some h
    cases h
    simp only [validArea, Bool.and_eq_true, List.all_eq_true, decide_eq_true_eq,
      ge_iff_le]
    refine ⟨reqField_sound (fun j a ha => asNonemptyStr_sound ha) hname, ?_⟩
    exact dfltField_sound (P := fun l => ∀ x ∈ l, validPlanter x = true)
      (fun j a ha => asArr_sound (fun j' a' ha' => decPlanter_sound ha') ha)
      (by intro x hx; cases hx) hps
  | null => simp [decArea] at h
  | bool b => simp [decArea] at h
  | num n => simp [decArea] at h
  | str s => simp [decArea] at h
  | arr xs => simp [decArea] at h

/-- Everything `decSeedling` accepts is a valid seedling. -/
theorem decSeedling_sound {j : Json} {s : Seedling} (h : decSeedling j = some s) :
    validSeedling s = true := by
  cases j with
  | obj fs =>
    simp only [decSeedling] at h
    obtain ⟨id, hid, h⟩ := obind_eq_some h
    obtain ⟨plant, hplant, h⟩ := obind_eq_some h
    obtain ⟨pd, hpd, h⟩ := obind_eq_some h
    obtain ⟨sc, hsc, h⟩ := obind_eq_some h
    obtain ⟨loc, hloc, h⟩ := obind_eq_some h
    obtain ⟨m, hm, h⟩ := obind_eq_some h
    obtain ⟨st, hst, h⟩ := obind_eq_some h
    cases h
    simp only [validSeedling, Bool.and_eq_true, decide_eq_true_eq]
    exact ⟨⟨reqField_sound (fun j a ha => decPlant_sound ha) hplant,
      reqField_sound (fun j a ha => asDatetime_sound ha) hpd⟩,
      reqField_sound (fun j a ha => asPosInt_sound ha) hsc⟩
  | null => simp [decSeedling] at h
  | bool b => simp [decSeedling] at h
  | num n => simp [decSeedling] at h
  | str s => simp [decSeedling] at h
  | arr xs => simp [decSeedling] at h

/-- Everything `decAiProvider` accepts is a valid provider. -/
theorem decAiProvider_sound {j : Json} {p : AiProvider}
    (h : decAiProvider j = some p) : validAiProvider p = true := by
  unfold decAiProvider at h
  split at h
  · split at h
    · cases h; rfl
    · obtain ⟨key, hkey, h⟩ := obind_eq_some h
      cases h
      simpa [validAiProvider] using
        reqField_sound (fun j a ha => asNonemptyStr_sound ha) hkey
    · obtain ⟨url, hurl, h⟩ := obind_eq_some h
      obtain ⟨tok, htok, h⟩ := obind_eq_some h
      cases h
      simpa [validAiProvider] using
        reqField_sound (fun j a ha => asUrl_sound ha) hurl
    · simp at h
  · simp at h

/-- Everything `decSettings` accepts is a valid settings object. -/
theorem decSettings_sound {j : Json} {s : Settings} (h : decSettings j = some s) :
    validSettings s = true := by
  cases j with
  | obj fs =>
    simp only [decSettings] at h
    obtain ⟨loc, hloc, h⟩ := obind_eq_some h
    obtain ⟨gz, hgz, h⟩ := obind_eq_some h
    obtain ⟨wp, hwp, h⟩ := obind_eq_some h
    obtain ⟨ai, hai, h⟩ := obind_eq_some h
    obtain ⟨lc, hlc, h⟩ := obind_eq_some h
    obtain ⟨lat, hlat, h⟩ := obind_eq_some h
    obtain ⟨lng, hlng, h⟩ := obind_eq_some h
    obtain ⟨pid, hpid, h⟩ := obind_eq_some h
    cases h
    simp only [validSettings]
    exact dfltField_sound (fun j a ha => decAiProvider_sound ha)
      (show validAiProvider .none = true from rfl) hai
  | null => simp [decSettings] at h
  | bool b => simp [decSettings] at h
  | num n => simp [decSettings] at h
  | str s => simp [decSettings] at h
  | arr xs => simp [decSettings] at h

/-- Everything `decGardenEvent` accepts is a valid event. -/
theorem decGardenEvent_sound {j : Json} {e : GardenEvent}
    (h : decGardenEvent j = some e) : validGardenEvent e = true := by
  cases j with
  | obj fs =>
    simp only [decGardenEvent] at h
    obtain ⟨id, hid, h⟩ := obind_eq_some h
    obtain ⟨ty, hty, h⟩ := obind_eq_some h
    obtain ⟨plant, hplant, h⟩ := obind_eq_some h
    obtain ⟨date, hdate, h⟩ := obind_eq_some h
    obtain ⟨gid, hgid, h⟩ := obind_eq_some h
    obtain ⟨note, hnote, h⟩ := obind_eq_some h
    obtain ⟨pid, hpid, h⟩ := obind_eq_some h
    cases h
    simp only [validGardenEvent, Bool.and_eq_true]
    constructor
    · cases plant with
      | none => rfl
      | some q =>
        simpa using optField_sound (fun j a ha => decPlant_sound ha) hplant q rfl
    · exact reqField_sound (fun j a ha => asDatetime_sound ha) hdate
  | null => simp [decGardenEvent] at h
  | bool b => simp [decGardenEvent] at h
  | num n => simp [decGardenEvent] at h
  | str s => simp [decGardenEvent] at h
  | arr xs => simp [decGardenEvent] at h

-- ---------------------------------------------------------------------------
-- Upsert / putRow characterizations
-- ---------------------------------------------------------------------------

@[simp] theorem upsert_nil (cid : α → String) (e : α) : upsert cid [] e = [e] := rfl

/-- The find-and-replace-or-push logic unfolds one element at a time. -/
theorem upsert_cons (cid : α → String) (x : α) (xs : List α) (e : α) :
    upsert cid (x :: xs) e =
      if cid x == cid e then e :: xs else x :: upsert cid xs e := by
  unfold upsert
  rw [List.findIdx?_cons]
  by_cases h : (cid x == cid e) = true
  · simp [h]
  · simp only [h, if_false, Bool.false_eq_true, List.findIdx?_succ]
    cases hfi : List.findIdx? (fun y => cid y == cid e) xs with
    | none => simp [upsert, hfi]
    | some i => simp [upsert, hfi]

@[simp] theorem putRow_nil (k : String) (v : Json) : putRow [] k v = [(k, v)] := rfl

/-- The put-by-primary-key logic unfolds one row at a time. -/
theorem putRow_cons (r : String × Json) (rest : List (String × Json))
    (k : String) (v : Json) :
    putRow (r :: rest) k v =
      if r.1 == k then (k, v) :: rest else r :: putRow rest k v := by
  unfold putRow
  rw [List.findIdx?_cons]
  by_cases h : (r.1 == k) = true
  · simp [h]
  · simp only [h, if_false, Bool.false_eq_true, List.findIdx?_succ]
    cases hfi : List.findIdx? (fun y => y.1 == k) rest with
    | none => simp [putRow, hfi]
    | some i => simp [putRow, hfi]

-- ---------------------------------------------------------------------------
-- List-level lemmas: filterMap over encoded lists, upsert, sorting
-- ---------------------------------------------------------------------------

/-- Re-validating an encoded list of round-trippable entities is the
identity. -/
theorem filterMap_dec_map_enc {dec : Json → Option α} {enc : α → Json} {l : List α}
    (h : ∀ x ∈ l, dec (enc x) = some x) : (l.map enc).filterMap dec = l := by
  induction l with
  | nil => rfl
  | cons x xs ih =>
    simp only [List.map_cons, List.filterMap_cons, h x (List.mem_cons_self x xs)]
    rw [ih (fun y hy => h y (List.mem_cons_of_mem x hy))]

/-- The upserted entity is a member of the result. -/
theorem mem_upsert_self (cid : α → String) (l : List α) (e : α) :
    e ∈ upsert cid l e := by
  induction l with
  | nil => simp
  | cons x xs ih =>
    rw [upsert_cons]
    by_cases h : (cid x == cid e) = true <;> simp [h, ih]

/-- Members of an upsert result come from the old list or are the new
entity. -/
theorem mem_upsert {cid : α → String} {l : List α} {e x : α}
    (h : x ∈ upsert cid l e) : x ∈ l ∨ x = e := by
  induction l with
  | nil => simp at h; exact Or.inr h
  | cons y ys ih =>
    rw [upsert_cons] at h
    by_cases hy : (cid y == cid e) = true
    · rw [if_pos hy] at h
      rcases List.mem_cons.mp h with h1 | h2
      · exact Or.inr h1
      · exact Or.inl (List.mem_cons_of_mem y h2)
    · rw [if_neg hy] at h
      rcases List.mem_cons.mp h with h1 | h2
      · exact Or.inl (h1 ▸ List.mem_cons_self y ys)
      · rcases ih h2 with h3 | h3
        · exact Or.inl (List.mem_cons_of_mem y h3)
        · exact Or.inr h3

/-- When no element matches the id, upsert appends at the end. -/
theorem upsert_of_forall_ne {cid : α → String} {l : List α} {e : α}
    (h : ∀ x ∈ l, (cid x == cid e) = false) : upsert cid l e = l ++ [e] := by
  induction l with
  | nil => rfl
  | cons x xs ih =>
    rw [upsert_cons, h x (List.mem_cons_self x xs)]
    simp only [Bool.false_eq_true, if_false, List.cons_append]
    rw [ih (fun y hy => h y (List.mem_cons_of_mem x hy))]

/-- Upserting the same entity twice is the same as doing it once. -/
theorem upsert_idem (cid : α → String) (l : List α) (e : α) :
    upsert cid (upsert cid l e) e = upsert cid l e := by
  induction l with
  | nil => simp [upsert_cons]
  | cons x xs ih =>
    rw [upsert_cons]
    by_cases h : (cid x == cid e) = true
    · rw [if_pos h, upsert_cons]
      simp
    · rw [if_neg h, upsert_cons, if_neg h, ih]

/-- On a collection with pairwise-distinct ids, the result of an upsert
holds exactly one entity carrying the upserted id. -/
theorem countP_upsert {cid : α → String} {l : List α} (e : α)
    (hnd : (l.map cid).Nodup) :
    (upsert cid l e).countP (fun x => cid x == cid e) = 1 := by
  induction l with
  | nil => simp [List.countP_cons]
  | cons x xs ih =>
    simp only [List.map_cons, List.nodup_cons, List.mem_map] at hnd
    obtain ⟨hx, hxs⟩ := hnd
    rw [upsert_cons]
    by_cases h : (cid x == cid e) = true
    · rw [if_pos h]
      have he : cid e = cid x := (eq_of_beq h).symm
      rw [List.countP_cons_of_pos _ _ (by simp)]
      have : xs.countP (fun y => cid y == cid e) = 0 := by
        rw [List.countP_eq_zero]
        intro y hy hbeq
        exact hx ⟨y, hy, (eq_of_beq hbeq).trans he⟩
      omega
    · rw [if_neg h, List.countP_cons_of_neg _ _ (by simp [h])]
      exact ih hxs

/-- Descending order on events by their timestamp, the order the
`getEvents` comparator establishes. -/
def evGE (a b : GardenEvent) : Prop :=
  getTime b.date ≤ getTime a.date

/-- Inserting into the descending order is a permutation. -/
theorem insertEventDesc_perm (e : GardenEvent) (l : List GardenEvent) :
    List.Perm (insertEventDesc e l) (e :: l) := by
  induction l with
  | nil => exact List.Perm.refl _
  | cons x xs ih =>
    unfold insertEventDesc
    by_cases h : getTime x.date < getTime e.date
    · rw [if_pos h]
    · rw [if_neg h]
      exact (ih.cons x).trans (List.Perm.swap e x xs)

/-- Sorting events is a permutation. -/
theorem sortEventsDesc_perm (l : List GardenEvent) : List.Perm (sortEventsDesc l) l := by
  induction l with
  | nil => exact List.Perm.refl _
  | cons x xs ih =>
    unfold sortEventsDesc
    exact (insertEventDesc_perm x (sortEventsDesc xs)).trans (ih.cons x)

/-- Inserting into a descending-sorted list keeps it sorted. -/
theorem insertEventDesc_sorted {l : List GardenEvent} (e : GardenEvent)
    (h : l.Pairwise evGE) : (insertEventDesc e l).Pairwise evGE := by
  induction l with
  | nil => simp [insertEventDesc, List.pairwise_cons]
  | cons x xs ih =>
    rw [List.pairwise_cons] at h
    obtain ⟨hx, hxs⟩ := h
    unfold insertEventDesc
    by_cases hlt : getTime x.date < getTime e.date
    · rw [if_pos hlt]
      rw [List.pairwise_cons]
      constructor
      · intro b hb
        rcases List.mem_cons.mp hb with h1 | h2
        · exact h1 ▸ Nat.le_of_lt hlt
        · exact Nat.le_trans (hx b h2) (Nat.le_of_lt hlt)
      · rw [List.pairwise_cons]
        exact ⟨hx, hxs⟩
    · rw [if_neg hlt]
      rw [List.pairwise_cons]
      constructor
      · intro b hb
        have hb' := (insertEventDesc_perm e xs).mem_iff.mp hb
        rcases List.mem_cons.mp hb' with h1 | h2
        · exact h1 ▸ Nat.le_of_not_lt hlt
        · exact hx b h2
      · exact ih hxs

/-- The event sort really sorts newest-first. -/
theorem sortEventsDesc_sorted (l : List GardenEvent) :
    (sortEventsDesc l).Pairwise evGE := by
  induction l with
  | nil => simp [sortEventsDesc]
  | cons x xs ih => exact insertEventDesc_sorted x ih

/-- In a descending-sorted list, a strictly newer event sits strictly
earlier. -/
theorem sorted_index_lt {l : List GardenEvent} (h : l.Pairwise evGE)
    (i j : Fin l.length)
    (hlt : getTime (l.get i).date < getTime (l.get j).date) : (j : ℕ) < (i : ℕ) := by
  rcases Nat.lt_trichotomy (i : ℕ) (j : ℕ) with hij | hij | hij
  · have := (List.pairwise_iff_get.mp h) i j hij
    exact absurd hlt (Nat.not_lt.mpr this)
  · rw [Fin.eq_of_val_eq hij] at hlt
    exact absurd hlt (Nat.lt_irrefl _)
  · exact hij

/-- Key-ordered insertion is a permutation. -/
theorem insertRowByKey_perm (r : String × Json) (t : List (String × Json)) :
    List.Perm (insertRowByKey r t) (r :: t) := by
  induction t with
  | nil => exact List.Perm.refl _
  | cons x xs ih =>
    unfold insertRowByKey
    by_cases h : keyLt r.1 x.1 = true
    · rw [if_pos h]
    · rw [if_neg h]
      exact (ih.cons x).trans (List.Perm.swap r x xs)

/-- Reading a table in primary-key order returns a permutation of its
rows. -/
theorem sortRowsByKey_perm (t : List (String × Json)) : List.Perm (sortRowsByKey t) t := by
  induction t with
  | nil => exact List.Perm.refl _
  | cons x xs ih =>
    unfold sortRowsByKey
    exact (insertRowByKey_perm x (sortRowsByKey xs)).trans (ih.cons x)

/-- The put row is a member of the result. -/
theorem mem_putRow_self (t : List (String × Json)) (k : String) (v : Json) :
    (k, v) ∈ putRow t k v := by
  induction t with
  | nil => simp
  | cons x xs ih =>
    rw [putRow_cons]
    by_cases h : (x.1 == k) = true <;> simp [h, ih]

/-- Rows of a put result come from the old table or are the new row. -/
theorem mem_putRow {t : List (String × Json)} {k : String} {v : Json} {r : String × Json}
    (h : r ∈ putRow t k v) : r ∈ t ∨ r = (k, v) := by
  induction t with
  | nil => simp at h; exact Or.inr h
  | cons x xs ih =>
    rw [putRow_cons] at h
    by_cases hx : (x.1 == k) = true
    · rw [if_pos hx] at h
      rcases List.mem_cons.mp h with h1 | h2
      · exact Or.inr h1
      · exact Or.inl (List.mem_cons_of_mem x h2)
    · rw [if_neg hx] at h
      rcases List.mem_cons.mp h with h1 | h2
      · exact Or.inl (h1 ▸ List.mem_cons_self x xs)
      · rcases ih h2 with h3 | h3
        · exact Or.inl (List.mem_cons_of_mem x h3)
        · exact Or.inr h3

-- ---------------------------------------------------------------------------
-- Adapter-level lemmas
-- ---------------------------------------------------------------------------

/-- Reading a written whole-collection blob of round-trippable entities
gives back the list. -/
theorem readArray_write {dec : Json → Option α} {enc : α → Json} {L : List α}
    (h : ∀ x ∈ L, dec (enc x) = some x) :
    readArray dec (some (.json (.arr (L.map enc)))) = L := by
  unfold readArray readRaw
  exact filterMap_dec_map_enc h

/-- Every entity `readArray` returns satisfies what the element decoder
guarantees. -/
theorem readArray_valid {dec : Json → Option α} {P : α → Prop}
    (hsound : ∀ j a, dec j = some a → P a) (b : Option Blob) :
    ∀ a ∈ readArray dec b, P a := by
  unfold readArray
  split
  · intro a ha
    obtain ⟨j, _, hdec⟩ := List.mem_filterMap.mp ha
    exact hsound j a hdec
  · intro a ha
    cases ha

namespace LocalStorage

theorem getAreas_valid (s : LSStore) : ∀ a ∈ getAreas s, validArea a = true :=
  readArray_valid (fun _ _ h => decArea_sound h) _

theorem getCustomPlants_valid (s : LSStore) :
    ∀ p ∈ getCustomPlants s, validPlant p = true :=
  readArray_valid (fun _ _ h => decPlant_sound h) _

theorem getSeedlings_valid (s : LSStore) :
    ∀ x ∈ getSeedlings s, validSeedling x = true :=
  readArray_valid (fun _ _ h => decSeedling_sound h) _

theorem getEvents_valid (s : LSStore) :
    ∀ e ∈ getEvents s, validGardenEvent e = true := by
  intro e he
  unfold getEvents at he
  have := (sortEventsDesc_perm _).mem_iff.mp he
  exact readArray_valid (fun _ _ h => decGardenEvent_sound h) _ e this

/-- Effect of `saveArea` on the read-back collection. -/
theorem getAreas_save (e : Area) (s : LSStore) (hv : validArea e = true) :
    getAreas (saveArea e s) = upsert Area.id (getAreas s) e := by
  show readArray decArea
    (some (.json (.arr ((upsert Area.id (getAreas s) e).map encArea)))) = _
  apply readArray_write
  intro x hx
  rcases mem_upsert hx with hmem | rfl
  · exact decArea_enc x (getAreas_valid s x hmem)
  · exact decArea_enc x hv

/-- Effect of `deleteArea` on the read-back collection. -/
theorem getAreas_delete (id : String) (s : LSStore) :
    getAreas (deleteArea id s) = (getAreas s).filter (fun a => a.id != id) := by
  show readArray decArea
    (some (.json (.arr (((getAreas s).filter (fun a => a.id != id)).map encArea)))) = _
  apply readArray_write
  intro x hx
  exact decArea_enc x (getAreas_valid s x (List.mem_of_mem_filter hx))

/-- Effect of `savePlant` on the read-back collection. -/
theorem getCustomPlants_save (p : Plant) (s : LSStore) (hv : validPlant p = true) :
    getCustomPlants (savePlant p s) = upsert Plant.id (getCustomPlants s) p := by
  show readArray decPlant
    (some (.json (.arr ((upsert Plant.id (getCustomPlants s) p).map encPlant)))) = _
  apply readArray_write
  intro x hx
  rcases mem_upsert hx with hmem | rfl
  · exact decPlant_encPlant x (getCustomPlants_valid s x hmem)
  · exact decPlant_encPlant x hv

/-- Effect of `deletePlant` on the read-back collection. -/
theorem getCustomPlants_delete (id : String) (s : LSStore) :
    getCustomPlants (deletePlant id s) =
      (getCustomPlants s).filter (fun p => p.id != id) := by
  show readArray decPlant
    (some (.json (.arr (((getCustomPlants s).filter (fun p => p.id != id)).map encPlant)))) = _
  apply readArray_write
  intro x hx
  exact decPlant_encPlant x (getCustomPlants_valid s x (List.mem_of_mem_filter hx))

/-- Effect of `saveSeedling` on the read-back collection. -/
theorem getSeedlings_save (sd : Seedling) (s : LSStore) (hv : validSeedling sd = true) :
    getSeedlings (saveSeedling sd s) = upsert Seedling.id (getSeedlings s) sd := by
  show readArray decSeedling
    (some (.json (.arr ((upsert Seedling.id (getSeedlings s) sd).map encSeedling)))) = _
  apply readArray_write
  intro x hx
  rcases mem_upsert hx with hmem | rfl
  · exact decSeedling_enc x (getSeedlings_valid s x hmem)
  · exact decSeedling_enc x hv

/-- Effect of `deleteSeedling` on the read-back collection. -/
theorem getSeedlings_delete (id : String) (s : LSStore) :
    getSeedlings (deleteSeedling id s) =
      (getSeedlings s).filter (fun x => x.id != id) := by
  show readArray decSeedling
    (some (.json (.arr (((getSeedlings s).filter (fun x => x.id != id)).map encSeedling)))) = _
  apply readArray_write
  intro x hx
  exact decSeedling_enc x (getSeedlings_valid s x (List.mem_of_mem_filter hx))

/-- Effect of `saveEvent` on the read-back collection. -/
theorem getEvents_save (e : GardenEvent) (s : LSStore)
    (hv : validGardenEvent e = true) :
    getEvents (saveEvent e s) =
      sortEventsDesc (upsert GardenEvent.id (getEvents s) e) := by
  show sortEventsDesc (readArray decGardenEvent
    (some (.json (.arr ((upsert GardenEvent.id (getEvents s) e).map encGardenEvent))))) = _
  rw [readArray_write]
  intro x hx
  rcases mem_upsert hx with hmem | rfl
  · exact decGardenEvent_enc x (getEvents_valid s x hmem)
  · exact decGardenEvent_enc x hv

/-- Effect of `deleteEvent` on the read-back collection. -/
theorem getEvents_delete (id : String) (s : LSStore) :
    getEvents (deleteEvent id s) =
      sortEventsDesc ((getEvents s).filter (fun e => e.id != id)) := by
  show sortEventsDesc (readArray decGardenEvent
    (some (.json (.arr (((getEvents s).filter (fun e => e.id != id)).map encGardenEvent))))) = _
  rw [readArray_write]
  intro x hx
  exact decGardenEvent_enc x (getEvents_valid s x (List.mem_of_mem_filter hx))

end LocalStorage

namespace Dexie

theorem getAreas_rows_valid (db : DexieDB) : ∀ a ∈ getAreas db, validArea a = true := by
  intro a ha
  obtain ⟨j, _, hdec⟩ := List.mem_filterMap.mp ha
  exact decArea_sound hdec

theorem getCustomPlants_rows_valid (db : DexieDB) :
    ∀ p ∈ getCustomPlants db, validPlant p = true := by
  intro p hp
  obtain ⟨j, _, hdec⟩ := List.mem_filterMap.mp hp
  exact decPlant_sound hdec

theorem getSeedlings_rows_valid (db : DexieDB) :
    ∀ x ∈ getSeedlings db, validSeedling x = true := by
  intro x hx
  obtain ⟨j, _, hdec⟩ := List.mem_filterMap.mp hx
  exact decSeedling_sound hdec

theorem getEvents_rows_valid (db : DexieDB) :
    ∀ e ∈ getEvents db, validGardenEvent e = true := by
  intro e he
  unfold getEvents at he
  have := (sortEventsDesc_perm _).mem_iff.mp he
  obtain ⟨j, _, hdec⟩ := List.mem_filterMap.mp this
  exact decGardenEvent_sound hdec

/-- A saved area is present in the next read. -/
theorem mem_getAreas_save (a : Area) (db : DexieDB) (hv : validArea a = true) :
    a ∈ getAreas (saveArea a db) := by
  unfold getAreas saveArea
  apply List.mem_filterMap.mpr
  refine ⟨encArea a, ?_, decArea_enc a hv⟩
  refine List.mem_map.mpr ⟨_, (sortRowsByKey_perm _).mem_iff.mpr (mem_putRow_self _ _ _), rfl⟩

/-- A saved plant is present in the next read. -/
theorem mem_getCustomPlants_save (p : Plant) (db : DexieDB)
    (hv : validPlant p = true) : p ∈ getCustomPlants (savePlant p db) := by
  unfold getCustomPlants savePlant
  apply List.mem_filterMap.mpr
  refine ⟨encPlant p, ?_, decPlant_encPlant p hv⟩
  refine List.mem_map.mpr ⟨_, (sortRowsByKey_perm _).mem_iff.mpr (mem_putRow_self _ _ _), rfl⟩

/-- A saved seedling is present in the next read. -/
theorem mem_getSeedlings_save (sd : Seedling) (db : DexieDB)
    (hv : validSeedling sd = true) : sd ∈ getSeedlings (saveSeedling sd db) := by
  unfold getSeedlings saveSeedling
  apply List.mem_filterMap.mpr
  refine ⟨encSeedling sd, ?_, decSeedling_enc sd hv⟩
  refine List.mem_map.mpr ⟨_, (sortRowsByKey_perm _).mem_iff.mpr (mem_putRow_self _ _ _), rfl⟩

/-- A saved event is present in the next read. -/
theorem mem_getEvents_save (e : GardenEvent) (db : DexieDB)
    (hv : validGardenEvent e = true) : e ∈ getEvents (saveEvent e db) := by
  unfold getEvents saveEvent
  apply (sortEventsDesc_perm _).mem_iff.mpr
  apply List.mem_filterMap.mpr
  refine ⟨encGardenEvent e, ?_, decGardenEvent_enc e hv⟩
  refine List.mem_map.mpr ⟨_, (sortRowsByKey_perm _).mem_iff.mpr (mem_putRow_self _ _ _), rfl⟩

end Dexie

-- ---------------------------------------------------------------------------
-- Settings lemmas
-- ---------------------------------------------------------------------------

/-- Whether a JSON value is an object. -/
def Json.isObj : Json → Bool
  | .obj _ => true
  | _ => false

/-- Whether a JSON value is an array. -/
def Json.isArr : Json → Bool
  | .arr _ => true
  | _ => false

/-- Parsing the empty object yields exactly the schema defaults. -/
theorem decSettings_empty : decSettings (.obj []) = some settingsDefaults := rfl

theorem parseWithDefaultsSettings_dec {j : Json} {s : Settings}
    (h : decSettings j = some s) : parseWithDefaultsSettings j = s := by
  unfold parseWithDefaultsSettings
  rw [h]

theorem parseWithDefaultsSettings_none {j : Json} (h : decSettings j = none) :
    parseWithDefaultsSettings j = settingsDefaults := by
  unfold parseWithDefaultsSettings
  rw [h, decSettings_empty]

/-- A raw value that is not an object fails settings validation outright. -/
theorem decSettings_not_obj {j : Json} (h : j.isObj = false) :
    decSettings j = none := by
  cases j <;> first
    | rfl
    | simp [Json.isObj] at h

/-- Looking up the put key returns the put value. -/
theorem lookupField_putRow_self (t : List (String × Json)) (k : String) (v : Json) :
    lookupField (putRow t k v) k = some v := by
  induction t with
  | nil => simp [lookupField]
  | cons x xs ih =>
    rw [putRow_cons]
    by_cases h : (x.1 == k) = true
    · rw [if_pos h]
      simp [lookupField]
    · rw [if_neg h]
      simp [lookupField, h, ih]

-- ---------------------------------------------------------------------------
-- Migration lemmas
-- ---------------------------------------------------------------------------

/-- A run that reports success leaves the completion marker set. -/
theorem migrate_success_flag (fail : Nat → Bool) (ls : LSStore) (db : DexieDB)
    (h : (migrateLocalStorageToDexie fail ls db).1 = true) :
    (migrateLocalStorageToDexie fail ls db).2.1.migratedToDexie = true := by
  unfold migrateLocalStorageToDexie at *
  by_cases hm : ls.migratedToDexie
  · simp [hm]
  · simp only [hm, if_false, Bool.false_eq_true] at h ⊢
    by_cases ha : (List.range (migrationWrites ls).length).any fail
    · simp [ha] at h
    · simp [ha]

/-- A marker-set store makes the migration a strict no-op. -/
theorem migrate_noop_of_flag (fail : Nat → Bool) (ls : LSStore) (db : DexieDB)
    (h : ls.migratedToDexie = true) :
    migrateLocalStorageToDexie fail ls db = (true, ls, db) := by
  unfold migrateLocalStorageToDexie
  rw [if_pos h]

-- ---------------------------------------------------------------------------
-- Claims
-- ---------------------------------------------------------------------------

/-- C1. Migration all-or-nothing: when the marker is unset and some
destination write of the run rejects, the run reports failure, and the
post-run localStorage is exactly the pre-run one — every legacy key holds
the value it held before and the completion marker remains unset. -/
theorem C1_migration_all_or_nothing (fail : Nat → Bool) (ls : LSStore)
    (db : DexieDB) (i : Nat) (hm : ls.migratedToDexie = false)
    (hi : i < (migrationWrites ls).length) (hf : fail i = true) :
    (migrateLocalStorageToDexie fail ls db).1 = false ∧
      (migrateLocalStorageToDexie fail ls db).2.1 = ls := by
  unfold migrateLocalStorageToDexie
  have hany : (List.range (migrationWrites ls).length).any fail = true := by
    rw [List.any_eq_true]
    exact ⟨i, List.mem_range.mpr hi, hf⟩
  rw [if_neg (by rw [hm]; exact Bool.false_ne_true)]
  simp [hany]

/-- Witness for C1: a concrete store with one legacy area and a first
write that rejects; the failed run leaves the store untouched and the
marker unset. -/
theorem C1_witness :
    (fun fail ls db =>
      (migrateLocalStorageToDexie fail ls db).1 = false ∧
        (migrateLocalStorageToDexie fail ls db).2.1 = ls)
      (fun _ => true)
      ⟨some (.json (.arr [encArea ⟨"a1", "Backyard", none, none, [], "default"⟩])),
        none, none, none, none, false⟩
      emptyDexie :=
  C1_migration_all_or_nothing (fun _ => true) _ emptyDexie 0 rfl (by decide) rfl

/-- C2. Migration idempotence: with the completion marker set the
procedure returns immediately leaving both stores untouched, and after
any run that reports success a second run is exactly such a no-op — it
performs no destination write and produces the same destination state. -/
theorem C2_migration_idempotent (f g : Nat → Bool) (ls : LSStore) (db : DexieDB) :
    (ls.migratedToDexie = true → migrateLocalStorageToDexie f ls db = (true, ls, db)) ∧
      ((migrateLocalStorageToDexie f ls db).1 = true →
        migrateLocalStorageToDexie g (migrateLocalStorageToDexie f ls db).2.1
            (migrateLocalStorageToDexie f ls db).2.2 =
          (true, (migrateLocalStorageToDexie f ls db).2.1,
            (migrateLocalStorageToDexie f ls db).2.2)) := by
  constructor
  · intro h
    exact migrate_noop_of_flag f ls db h
  · intro h
    exact migrate_noop_of_flag g _ _ (migrate_success_flag f ls db h)

/-- Witness for C2: a concrete faultless run over a one-area legacy store
completes, and the second run is a no-op on the resulting states. -/
theorem C2_witness :
    (fun f g ls db =>
      (ls.migratedToDexie = true → migrateLocalStorageToDexie f ls db = (true, ls, db)) ∧
        ((migrateLocalStorageToDexie f ls db).1 = true →
          migrateLocalStorageToDexie g (migrateLocalStorageToDexie f ls db).2.1
              (migrateLocalStorageToDexie f ls db).2.2 =
            (true, (migrateLocalStorageToDexie f ls db).2.1,
              (migrateLocalStorageToDexie f ls db).2.2)))
      (fun _ => false) (fun _ => false)
      ⟨some (.json (.arr [encArea ⟨"a1", "Backyard", none, none, [], "default"⟩])),
        none, none, none, none, false⟩
      emptyDexie :=
  C2_migration_idempotent (fun _ => false) (fun _ => false) _ emptyDexie

/-- When some element carries the id, upsert replaces the first such
element in place — positions of all other elements are untouched. -/
theorem upsert_of_exists {cid : α → String} {l : List α} {e : α}
    (h : ∃ x ∈ l, cid x = cid e) :
    ∃ i : Fin l.length, cid (l.get i) = cid e ∧ upsert cid l e = l.set i e := by
  induction l with
  | nil => simp at h
  | cons y ys ih =>
    by_cases hy : (cid y == cid e) = true
    · refine ⟨⟨0, by simp⟩, eq_of_beq hy, ?_⟩
      rw [upsert_cons, if_pos hy]
      rfl
    · have h' : ∃ x ∈ ys, cid x = cid e := by
        obtain ⟨x, hx, hcx⟩ := h
        rcases List.mem_cons.mp hx with rfl | hmem
        · exact absurd (beq_iff_eq.mpr hcx) (by simpa using hy)
        · exact ⟨x, hmem, hcx⟩
      obtain ⟨i, hgi, hup⟩ := ih h'
      refine ⟨i.succ, by simpa using hgi, ?_⟩
      rw [upsert_cons, if_neg hy, hup]
      rfl

-- Sample entities used by the concrete witnesses.

/-- A concrete valid area. -/
def sampleArea : Area := ⟨"a1", "Backyard", none, none, [], "default"⟩

/-- A concrete valid plant. -/
def samplePlant : Plant :=
  ⟨"p1", "Tomato", "#ef4444", "T", none, none, none, false, none, none, none,
   [], [], [], [], [], none, .custom⟩

/-- A concrete valid seedling. -/
def sampleSeedling : Seedling :=
  ⟨"s1", samplePlant, "2024-03-01T10:00:00Z", 5, "windowsill", none, .germinating⟩

/-- A concrete valid event with a chosen id and date. -/
def sampleEvent (id date : String) : GardenEvent :=
  ⟨id, .planted, none, date, none, none, "default"⟩

/-- C3. Round-trip: on either backend, saving a valid entity of any list
collection makes a subsequent getAll contain an entity equal to it. -/
theorem C3_round_trip (s : LSStore) (db : DexieDB) :
    (∀ a : Area, validArea a = true →
      a ∈ LocalStorage.getAreas (LocalStorage.saveArea a s)) ∧
    (∀ p : Plant, validPlant p = true →
      p ∈ LocalStorage.getCustomPlants (LocalStorage.savePlant p s)) ∧
    (∀ sd : Seedling, validSeedling sd = true →
      sd ∈ LocalStorage.getSeedlings (LocalStorage.saveSeedling sd s)) ∧
    (∀ e : GardenEvent, validGardenEvent e = true →
      e ∈ LocalStorage.getEvents (LocalStorage.saveEvent e s)) ∧
    (∀ a : Area, validArea a = true → a ∈ Dexie.getAreas (Dexie.saveArea a db)) ∧
    (∀ p : Plant, validPlant p = true →
      p ∈ Dexie.getCustomPlants (Dexie.savePlant p db)) ∧
    (∀ sd : Seedling, validSeedling sd = true →
      sd ∈ Dexie.getSeedlings (Dexie.saveSeedling sd db)) ∧
    (∀ e : GardenEvent, validGardenEvent e = true →
      e ∈ Dexie.getEvents (Dexie.saveEvent e db)) := by
  refine ⟨?_, ?_, ?_, ?_, ?_, ?_, ?_, ?_⟩
  · intro a hv
    rw [LocalStorage.getAreas_save a s hv]
    exact mem_upsert_self _ _ _
  · intro p hv
    rw [LocalStorage.getCustomPlants_save p s hv]
    exact mem_upsert_self _ _ _
  · intro sd hv
    rw [LocalStorage.getSeedlings_save sd s hv]
    exact mem_upsert_self _ _ _
  · intro e hv
    rw [LocalStorage.getEvents_save e s hv]
    exact (sortEventsDesc_perm _).mem_iff.mpr (mem_upsert_self _ _ _)
  · exact fun a hv => Dexie.mem_getAreas_save a db hv
  · exact fun p hv => Dexie.mem_getCustomPlants_save p db hv
  · exact fun sd hv => Dexie.mem_getSeedlings_save sd db hv
  · exact fun e hv => Dexie.mem_getEvents_save e db hv

/-- Witness for C3 at concrete entities on both empty backends. -/
theorem C3_witness :
    sampleArea ∈ LocalStorage.getAreas (LocalStorage.saveArea sampleArea emptyLS) ∧
    samplePlant ∈
      LocalStorage.getCustomPlants (LocalStorage.savePlant samplePlant emptyLS) ∧
    sampleSeedling ∈
      LocalStorage.getSeedlings (LocalStorage.saveSeedling sampleSeedling emptyLS) ∧
    sampleEvent "e1" "2024-03-01T10:00:00Z" ∈
      LocalStorage.getEvents
        (LocalStorage.saveEvent (sampleEvent "e1" "2024-03-01T10:00:00Z") emptyLS) ∧
    sampleArea ∈ Dexie.getAreas (Dexie.saveArea sampleArea emptyDexie) ∧
    samplePlant ∈ Dexie.getCustomPlants (Dexie.savePlant samplePlant emptyDexie) ∧
    sampleSeedling ∈
      Dexie.getSeedlings (Dexie.saveSeedling sampleSeedling emptyDexie) ∧
    sampleEvent "e1" "2024-03-01T10:00:00Z" ∈
      Dexie.getEvents
        (Dexie.saveEvent (sampleEvent "e1" "2024-03-01T10:00:00Z") emptyDexie) := by
  obtain ⟨h1, h2, h3, h4, h5, h6, h7, h8⟩ := C3_round_trip emptyLS emptyDexie
  exact ⟨h1 _ (by decide), h2 _ (by decide), h3 _ (by decide), h4 _ (by decide),
    h5 _ (by decide), h6 _ (by decide), h7 _ (by decide), h8 _ (by decide)⟩

/-- C4. Upsert semantics of save: with no matching id the entity is
appended at the end; with a matching id the first such element is
replaced in place (`List.set` keeps every other position); saving the
same entity twice equals saving it once, and on an id-unique collection
the result holds exactly one entity with that id. -/
theorem C4_upsert_semantics (l : List Area) (e : Area) (s : LSStore)
    (hv : validArea e = true) :
    ((∀ x ∈ l, (x.id == e.id) = false) → upsert Area.id l e = l ++ [e]) ∧
    ((∃ x ∈ l, x.id = e.id) →
      ∃ i : Fin l.length, (l.get i).id = e.id ∧ upsert Area.id l e = l.set i e) ∧
    (LocalStorage.getAreas (LocalStorage.saveArea e (LocalStorage.saveArea e s)) =
      LocalStorage.getAreas (LocalStorage.saveArea e s)) ∧
    (((LocalStorage.getAreas s).map Area.id).Nodup →
      (LocalStorage.getAreas
        (LocalStorage.saveArea e (LocalStorage.saveArea e s))).countP
          (fun x => x.id == e.id) = 1) := by
  refine ⟨?_, ?_, ?_, ?_⟩
  · exact fun h => upsert_of_forall_ne h
  · exact fun h => upsert_of_exists h
  · rw [LocalStorage.getAreas_save e _ hv, LocalStorage.getAreas_save e s hv,
      upsert_idem]
  · intro hnd
    rw [LocalStorage.getAreas_save e _ hv, LocalStorage.getAreas_save e s hv,
      upsert_idem]
    exact countP_upsert e hnd

/-- Witness for C4: on a one-area store the saved entity replaces the
existing id in place and the double-save leaves a single copy. -/
theorem C4_witness :
    (∃ i : Fin ([sampleArea].length), ([sampleArea].get i).id = sampleArea.id ∧
      upsert Area.id [sampleArea] sampleArea = [sampleArea].set i sampleArea) ∧
    LocalStorage.getAreas
        (LocalStorage.saveArea sampleArea (LocalStorage.saveArea sampleArea emptyLS)) =
      LocalStorage.getAreas (LocalStorage.saveArea sampleArea emptyLS) ∧
    (LocalStorage.getAreas
        (LocalStorage.saveArea sampleArea
          (LocalStorage.saveArea sampleArea emptyLS))).countP
          (fun x => x.id == sampleArea.id) = 1 := by
  obtain ⟨h1, h2, h3, h4⟩ :=
    C4_upsert_semantics [sampleArea] sampleArea emptyLS (by decide)
  exact ⟨h2 ⟨sampleArea, List.mem_singleton.mpr rfl, rfl⟩, h3, h4 (by decide)⟩

/-- C5. Strict-or-drop resilience of getAll: a missing, unparsable or
non-array blob reads as the empty list; in an array blob each element is
validated independently — one invalid element is dropped without
affecting its siblings, and every valid element is returned. -/
theorem C5_strict_or_drop (dec : Json → Option α) :
    (readArray dec none = []) ∧
    (readArray dec (some .garbage) = []) ∧
    (∀ j : Json, j.isArr = false → readArray dec (some (.json j)) = []) ∧
    (∀ (l1 l2 : List Json) (c : Json), dec c = none →
      readArray dec (some (.json (.arr (l1 ++ c :: l2)))) =
        l1.filterMap dec ++ l2.filterMap dec) ∧
    (∀ (xs : List Json) (j : Json) (a : α), j ∈ xs → dec j = some a →
      a ∈ readArray dec (some (.json (.arr xs)))) := by
  refine ⟨rfl, rfl, ?_, ?_, ?_⟩
  · intro j hj
    cases j <;> first
      | rfl
      | simp [Json.isArr] at hj
  · intro l1 l2 c hc
    show (l1 ++ c :: l2).filterMap dec = _
    rw [List.filterMap_append, List.filterMap_cons_none hc]
  · intro xs j a hj ha
    exact List.mem_filterMap.mpr ⟨j, hj, ha⟩

/-- Witness for C5: the spec's example — a valid area next to a malformed
one; reading drops exactly the bad element. -/
theorem C5_witness :
    readArray decArea
        (some (.json (.arr ([encArea sampleArea] ++ .obj [("id", .num 123)] :: [])))) =
      [sampleArea] ∧
    readArray decArea (some (.json (.str "oops"))) = [] := by
  obtain ⟨_, _, h3, h4, _⟩ := C5_strict_or_drop decArea
  refine ⟨?_, h3 (.str "oops") (by decide)⟩
  have := h4 [encArea sampleArea] [] (.obj [("id", .num 123)]) (by decide)
  rw [this]
  decide

/-- C6. Settings are never absent and never partial: an empty store reads
as exactly the documented defaults on both backends; a stored valid
(possibly partial) object reads as its parse — present fields overlaid
onto schema defaults; a non-object or unparsable stored value reads as
the full defaults; a saved valid settings object reads back unchanged. -/
theorem C6_settings_never_absent (s : LSStore) (db : DexieDB) :
    (LocalStorage.getSettings emptyLS =
      ⟨"", "6b", "open-meteo", .none, "en", none, none, "default"⟩) ∧
    (Dexie.getSettings emptyDexie =
      ⟨"", "6b", "open-meteo", .none, "en", none, none, "default"⟩) ∧
    (s.settings = none → LocalStorage.getSettings s = settingsDefaults) ∧
    (s.settings = some .garbage → LocalStorage.getSettings s = settingsDefaults) ∧
    (∀ j, s.settings = some (.json j) → j.isObj = false →
      LocalStorage.getSettings s = settingsDefaults) ∧
    (∀ j st, s.settings = some (.json j) → decSettings j = some st →
      LocalStorage.getSettings s = st) ∧
    (∀ loc, s.settings = some (.json (.obj [("location", .str loc)])) →
      LocalStorage.getSettings s = { settingsDefaults with location := loc }) ∧
    (∀ st : Settings, validSettings st = true →
      LocalStorage.getSettings (LocalStorage.saveSettings st s) = st ∧
        Dexie.getSettings (Dexie.saveSettings st db) = st) := by
  refine ⟨rfl, rfl, ?_, ?_, ?_, ?_, ?_, ?_⟩
  · intro h
    unfold LocalStorage.getSettings readRaw
    rw [h]
    rfl
  · intro h
    unfold LocalStorage.getSettings readRaw
    rw [h]
    rfl
  · intro j hset hobj
    unfold LocalStorage.getSettings readRaw
    rw [hset]
    exact parseWithDefaultsSettings_none (decSettings_not_obj hobj)
  · intro j st hset hdec
    unfold LocalStorage.getSettings readRaw
    rw [hset]
    exact parseWithDefaultsSettings_dec hdec
  · intro loc hset
    unfold LocalStorage.getSettings readRaw
    rw [hset]
    exact parseWithDefaultsSettings_dec rfl
  · intro st hv
    constructor
    · unfold LocalStorage.getSettings LocalStorage.saveSettings readRaw
      exact parseWithDefaultsSettings_dec (decSettings_enc st hv)
    · unfold Dexie.getSettings Dexie.saveSettings
      rw [lookupField_putRow_self]
      exact parseWithDefaultsSettings_dec (decSettings_enc st hv)

/-- Witness for C6 on a concrete store holding a partial settings object
with only a location. -/
theorem C6_witness :
    LocalStorage.getSettings
        ⟨none, none, none, some (.json (.obj [("location", .str "Amsterdam")])), none,
          false⟩ =
      { settingsDefaults with location := "Amsterdam" } ∧
    LocalStorage.getSettings
        ⟨none, none, none, some (.json (.str "garbage")), none, false⟩ =
      settingsDefaults := by
  obtain ⟨_, _, _, _, h5, _, h7, _⟩ :=
    C6_settings_never_absent
      ⟨none, none, none, some (.json (.obj [("location", .str "Amsterdam")])), none,
        false⟩ emptyDexie
  obtain ⟨_, _, _, _, h5', _, _, _⟩ :=
    C6_settings_never_absent
      ⟨none, none, none, some (.json (.str "garbage")), none, false⟩ emptyDexie
  exact ⟨h7 "Amsterdam" rfl, h5' (.str "garbage") rfl (by decide)⟩

/-- C7. Event ordering: on either backend, getEvents returns the
validated events sorted newest-timestamp-first — whenever one returned
event has a strictly smaller timestamp than another, the newer one sits
at a strictly earlier position, for every store and hence for every save
order. -/
theorem C7_event_ordering (s : LSStore) (db : DexieDB) :
    (∀ i j : Fin (LocalStorage.getEvents s).length,
      getTime (((LocalStorage.getEvents s).get i).date) <
          getTime (((LocalStorage.getEvents s).get j).date) →
        (j : ℕ) < (i : ℕ)) ∧
    (∀ i j : Fin (Dexie.getEvents db).length,
      getTime (((Dexie.getEvents db).get i).date) <
          getTime (((Dexie.getEvents db).get j).date) →
        (j : ℕ) < (i : ℕ)) := by
  constructor
  · intro i j hlt
    exact sorted_index_lt (sortEventsDesc_sorted _) i j hlt
  · intro i j hlt
    exact sorted_index_lt (sortEventsDesc_sorted _) i j hlt

/-- C10. getCustomPlants applies no provenance filter: every element of
the stored collection that validates is returned by either backend, no
matter its source tag; and a stored plant lacking the source field
validates with the schema default tag `bundled`. -/
theorem C10_custom_plants_unfiltered (s : LSStore) (db : DexieDB) :
    (∀ (js : List Json) (j : Json) (p : Plant),
      s.customPlants = some (.json (.arr js)) → j ∈ js → decPlant j = some p →
        p ∈ LocalStorage.getCustomPlants s) ∧
    (∀ (r : String × Json) (p : Plant), r ∈ db.customPlants →
      decPlant r.2 = some p → p ∈ Dexie.getCustomPlants db) ∧
    (∀ (fs : List (String × Json)) (p : Plant), lookupField fs "source" = none →
      decPlant (.obj fs) = some p → p.source = .bundled) := by
  refine ⟨?_, ?_, ?_⟩
  · intro js j p hset hj hdec
    unfold LocalStorage.getCustomPlants readArray readRaw
    rw [hset]
    exact List.mem_filterMap.mpr ⟨j, hj, hdec⟩
  · intro r p hr hdec
    unfold Dexie.getCustomPlants
    apply List.mem_filterMap.mpr
    refine ⟨r.2, ?_, hdec⟩
    exact List.mem_map.mpr ⟨r, (sortRowsByKey_perm _).mem_iff.mpr hr, rfl⟩
  · intro fs p hnone hdec
    simp only [decPlant] at hdec
    obtain ⟨id, hid, h⟩ := obind_eq_some hdec
    obtain ⟨name, hname, h⟩ := obind_eq_some h
    obtain ⟨color, hcolor, h⟩ := obind_eq_some h
    obtain ⟨icon, hicon, h⟩ := obind_eq_some h
    obtain ⟨de, hde, h⟩ := obind_eq_some h
    obtain ⟨va, hva, h⟩ := obind_eq_some h
    obtain ⟨dt, hdt, h⟩ := obind_eq_some h
    obtain ⟨se, hse, h⟩ := obind_eq_some h
    obtain ⟨am, ham, h⟩ := obind_eq_some h
    obtain ⟨sp, hsp, h⟩ := obind_eq_some h
    obtain ⟨fh, hfh, h⟩ := obind_eq_some h
    obtain ⟨co, hco, h⟩ := obind_eq_some h
    obtain ⟨an, han, h⟩ := obind_eq_some h
    obtain ⟨s1, hs1, h⟩ := obind_eq_some h
    obtain ⟨s2, hs2, h⟩ := obind_eq_some h
    obtain ⟨s3, hs3, h⟩ := obind_eq_some h
    obtain ⟨su, hsu, h⟩ := obind_eq_some h
    obtain ⟨src, hsrc, h⟩ := obind_eq_some h
    cases h
    unfold dfltField at hsrc
    rw [hnone] at hsrc
    cases hsrc
    rfl

/-- Witness for C10: a raw plant object with no source field validates,
defaults to the bundled tag, and is returned from a concrete store. -/
theorem C10_witness :
    (decPlant (.obj [("id", .str "p9"), ("name", .str "Mint"), ("color", .str "#0f0"),
        ("icon", .str "M")])).map Plant.source = some PlantSource.bundled ∧
    ∀ p : Plant,
      decPlant (.obj [("id", .str "p9"), ("name", .str "Mint"), ("color", .str "#0f0"),
          ("icon", .str "M")]) = some p →
        p ∈ LocalStorage.getCustomPlants
          ⟨none, some (.json (.arr [.obj [("id", .str "p9"), ("name", .str "Mint"),
            ("color", .str "#0f0"), ("icon", .str "M")]])), none, none, none, false⟩ := by
  obtain ⟨h1, _, h3⟩ :=
    C10_custom_plants_unfiltered
      ⟨none, some (.json (.arr [.obj [("id", .str "p9"), ("name", .str "Mint"),
        ("color", .str "#0f0"), ("icon", .str "M")]])), none, none, none, false⟩
      emptyDexie
  refine ⟨by decide, ?_⟩
  intro p hp
  exact h1 _ _ p rfl (List.mem_singleton.mpr rfl) hp

/-- A concrete localStorage with two events saved oldest-first. -/
def evStore : LSStore :=
  ⟨none, none, none, none,
    some (.json (.arr [encGardenEvent (sampleEvent "e1" "2024-01-01T00:00:00Z"),
      encGardenEvent (sampleEvent "e2" "2025-01-01T00:00:00Z")])), false⟩

/-- A concrete events table with two rows saved oldest-first. -/
def evDexie : DexieDB :=
  ⟨[], [], [], [],
    [("e1", encGardenEvent (sampleEvent "e1" "2024-01-01T00:00:00Z")),
     ("e2", encGardenEvent (sampleEvent "e2" "2025-01-01T00:00:00Z"))]⟩

/-- Witness for C7: with an older and a newer event stored oldest-first
on both backends, the newer event is returned first. -/
theorem C7_witness :
    getTime ((LocalStorage.getEvents evStore).get ⟨1, by decide⟩).date <
        getTime ((LocalStorage.getEvents evStore).get ⟨0, by decide⟩).date ∧
    getTime ((Dexie.getEvents evDexie).get ⟨1, by decide⟩).date <
        getTime ((Dexie.getEvents evDexie).get ⟨0, by decide⟩).date ∧
    (0 : ℕ) < (1 : ℕ) :=
  ⟨by decide, by decide,
    (C7_event_ordering evStore evDexie).1 ⟨1, by decide⟩ ⟨0, by decide⟩ (by decide)⟩

/-- Dropping the rows with a given key commutes with per-row validation
when each valid row is keyed by its entity's id. -/
theorem filterMap_filter_key {dec : Json → Option α} (cid : α → String)
    (t : List (String × Json)) (id : String)
    (hkc : ∀ r ∈ t, ∀ a, dec r.2 = some a → r.1 = cid a) :
    ((t.filter (fun r => r.1 != id)).map Prod.snd).filterMap dec =
      ((t.map Prod.snd).filterMap dec).filter (fun a => cid a != id) := by
  induction t with
  | nil => rfl
  | cons r rs ih =>
    have hkr := hkc r (List.mem_cons_self r rs)
    have ih' := ih (fun r' hr' => hkc r' (List.mem_cons_of_mem _ hr'))
    by_cases hk : (r.1 == id) = true
    · cases hd : dec r.2 with
      | none =>
        simp only [List.filter_cons, List.map_cons, List.filterMap_cons, hd, bne, hk,
          Bool.not_true, Bool.false_eq_true, if_false]
        exact ih'
      | some a =>
        have hcid : cid a = id := (hkr a hd) ▸ eq_of_beq hk
        simp only [List.filter_cons, List.map_cons, List.filterMap_cons, hd, bne, hk,
          hcid, beq_self_eq_true, Bool.not_true, Bool.false_eq_true, if_false]
        exact ih'
    · have hk' : (r.1 == id) = false := by
        cases hb : (r.1 == id)
        · rfl
        · exact absurd hb hk
      cases hd : dec r.2 with
      | none =>
        simp only [List.filter_cons, List.map_cons, List.filterMap_cons, hd, bne, hk',
          Bool.not_false, if_true]
        simpa [List.filterMap_cons, hd] using ih'
      | some a =>
        have hcid : r.1 = cid a := hkr a hd
        simp only [List.filter_cons, List.map_cons, List.filterMap_cons, hd, bne, hk',
          Bool.not_false, if_true, ← hcid]
        simpa [List.filterMap_cons, hd, bne, hk'] using ih'

/-- C9. Delete is a no-op for an unknown id: on the Flat-Store the blob is
rewritten to the filtered collection, so deleting an absent id leaves the
read-back collection unchanged; on the Indexed-Store deleting a key that
matches no row leaves the database untouched, and on an id-keyed table
deleting removes exactly the entities carrying that id. -/
theorem C9_delete_unknown_noop (id : String) (s : LSStore) (db : DexieDB) :
    (LocalStorage.getAreas (LocalStorage.deleteArea id s) =
      (LocalStorage.getAreas s).filter (fun a => a.id != id)) ∧
    ((∀ a ∈ LocalStorage.getAreas s, (a.id == id) = false) →
      LocalStorage.getAreas (LocalStorage.deleteArea id s) =
        LocalStorage.getAreas s) ∧
    ((∀ r ∈ db.areas, (r.1 == id) = false) → Dexie.deleteArea id db = db) ∧
    ((∀ r ∈ db.areas, ∀ a, decArea r.2 = some a → r.1 = a.id) →
      List.Perm (Dexie.getAreas (Dexie.deleteArea id db))
        ((Dexie.getAreas db).filter (fun a => a.id != id))) := by
  refine ⟨LocalStorage.getAreas_delete id s, ?_, ?_, ?_⟩
  · intro h
    rw [LocalStorage.getAreas_delete id s]
    apply List.filter_eq_self.mpr
    intro a ha
    simp [bne, h a ha]
  · intro h
    have heq : deleteRow db.areas id = db.areas := by
      apply List.filter_eq_self.mpr
      intro r hr
      simp [bne, h r hr]
    unfold Dexie.deleteArea
    rw [heq]
  · intro hkc
    have p1 : List.Perm (Dexie.getAreas (Dexie.deleteArea id db))
        (((deleteRow db.areas id).map Prod.snd).filterMap decArea) :=
      ((sortRowsByKey_perm _).map Prod.snd).filterMap decArea
    have p2 : ((deleteRow db.areas id).map Prod.snd).filterMap decArea =
        ((db.areas.map Prod.snd).filterMap decArea).filter (fun a => a.id != id) :=
      filterMap_filter_key Area.id db.areas id hkc
    have p3 : List.Perm
        (((db.areas.map Prod.snd).filterMap decArea).filter (fun a => a.id != id))
        ((Dexie.getAreas db).filter (fun a => a.id != id)) :=
      ((((sortRowsByKey_perm db.areas).map Prod.snd).filterMap decArea).filter _).symm
    exact (p1.trans (p2 ▸ List.Perm.refl _)).trans p3

/-- Witness for C9: deleting an id absent from a one-area store and table
changes nothing; deleting on the keyed table filters the matching id. -/
theorem C9_witness :
    (LocalStorage.getAreas
        (LocalStorage.deleteArea "ghost"
          ⟨some (.json (.arr [encArea sampleArea])), none, none, none, none, false⟩) =
      LocalStorage.getAreas
        ⟨some (.json (.arr [encArea sampleArea])), none, none, none, none, false⟩) ∧
    (Dexie.deleteArea "ghost" ⟨[("a1", encArea sampleArea)], [], [], [], []⟩ =
      ⟨[("a1", encArea sampleArea)], [], [], [], []⟩) ∧
    List.Perm
      (Dexie.getAreas
        (Dexie.deleteArea "ghost" ⟨[("a1", encArea sampleArea)], [], [], [], []⟩))
      ((Dexie.getAreas ⟨[("a1", encArea sampleArea)], [], [], [], []⟩).filter
        (fun a => a.id != "ghost")) := by
  obtain ⟨_, h2, h3, h4⟩ :=
    C9_delete_unknown_noop "ghost"
      ⟨some (.json (.arr [encArea sampleArea])), none, none, none, none, false⟩
      ⟨[("a1", encArea sampleArea)], [], [], [], []⟩
  refine ⟨h2 (by decide), h3 (by decide), h4 ?_⟩
  intro r hr a ha
  rw [List.mem_singleton] at hr
  subst hr
  have hdec : decArea (encArea sampleArea) = some sampleArea := by decide
  have h2a : some sampleArea = some a := hdec.symm.trans ha
  cases h2a
  rfl

-- ---------------------------------------------------------------------------
-- Backend equivalence machinery (C8)
-- ---------------------------------------------------------------------------

/-- When ids are pairwise distinct, an upsert is a permutation of placing
the new entity in front of the old list minus the replaced id. -/
theorem upsert_perm_cons_filter {cid : α → String} {l : List α} (e : α)
    (hnd : (l.map cid).Nodup) :
    List.Perm (upsert cid l e) (e :: l.filter fun x => cid x != cid e) := by
  induction l with
  | nil => exact List.Perm.refl _
  | cons x xs ih =>
    simp only [List.map_cons, List.nodup_cons, List.mem_map] at hnd
    obtain ⟨hx, hxs⟩ := hnd
    rw [upsert_cons]
    by_cases h : (cid x == cid e) = true
    · rw [if_pos h]
      have hcx : cid x = cid e := eq_of_beq h
      have hhead : (cid x != cid e) = false := by simp [bne, h]
      have hfil : xs.filter (fun y => cid y != cid e) = xs := by
        apply List.filter_eq_self.mpr
        intro y hy
        have hne : cid y ≠ cid e := fun hcy => hx ⟨y, hy, hcy.trans hcx.symm⟩
        simp [bne, hne]
      rw [List.filter_cons, hhead]
      simp only [Bool.false_eq_true, if_false, hfil]
      exact List.Perm.refl _
    · rw [if_neg h]
      have hhead : (cid x != cid e) = true := by
        cases hb : (cid x == cid e)
        · simp [bne, hb]
        · exact absurd hb h
      rw [List.filter_cons, hhead]
      simp only [if_true]
      exact ((ih hxs).cons x).trans (List.Perm.swap e x _)

/-- Upsert keeps ids pairwise distinct. -/
theorem nodup_upsert {cid : α → String} {l : List α} (e : α)
    (hnd : (l.map cid).Nodup) : ((upsert cid l e).map cid).Nodup := by
  apply ((upsert_perm_cons_filter e hnd).map cid).nodup_iff.mpr
  simp only [List.map_cons, List.nodup_cons, List.mem_map]
  constructor
  · rintro ⟨y, hy, hcy⟩
    have := List.of_mem_filter hy
    rw [hcy] at this
    simp [bne] at this
  · exact ((List.filter_sublist l).map cid).nodup hnd

/-- A Dexie put is the pair-level upsert keyed by the first component. -/
theorem putRow_eq_upsert (t : List (String × Json)) (k : String) (v : Json) :
    putRow t k v = upsert Prod.fst t (k, v) := by
  induction t with
  | nil => rfl
  | cons x xs ih =>
    rw [putRow_cons, upsert_cons]
    by_cases h : (x.1 == k) = true
    · simp [h]
    · simp [h, ih]

section BackendEquiv

variable {α : Type} (cid : α → String) (enc : α → Json) (dec : Json → Option α)
  (valid : α → Bool)

/-- Relation between one Flat-Store collection blob and the corresponding
Indexed-Store table: both represent the same list of valid, uniquely-id'd
entities — the blob as the serialized whole array, the table as one
id-keyed row per entity in any physical order. -/
def ColRel (b : Option Blob) (t : List (String × Json)) : Prop :=
  ∃ L : List α, (∀ x ∈ L, valid x = true) ∧ (L.map cid).Nodup ∧
    readArray dec b = L ∧ List.Perm t (L.map fun x => (cid x, enc x))

theorem ColRel_empty : ColRel cid enc dec valid none [] :=
  ⟨[], by simp, by simp, rfl, by simp⟩

theorem ColRel_save_of_perm (hrt : ∀ x, valid x = true → dec (enc x) = some x)
    {b : Option Blob} {t : List (String × Json)} (e : α) (hv : valid e = true)
    (M : List α) (hM : List.Perm M (readArray dec b))
    (h : ColRel cid enc dec valid b t) :
    ColRel cid enc dec valid
      (some (.json (.arr ((upsert cid M e).map enc))))
      (putRow t (cid e) (enc e)) := by
  obtain ⟨L, hval, hnd, hread, hperm⟩ := h
  rw [hread] at hM
  have hvalM : ∀ x ∈ M, valid x = true := fun x hx => hval x (hM.mem_iff.mp hx)
  have hndM : (M.map cid).Nodup := (hM.map cid).nodup_iff.mpr hnd
  refine ⟨upsert cid M e, ?_, nodup_upsert e hndM, ?_, ?_⟩
  · intro x hx
    rcases mem_upsert hx with hm | rfl
    · exact hvalM x hm
    · exact hv
  · apply readArray_write
    intro x hx
    rcases mem_upsert hx with hm | rfl
    · exact hrt x (hvalM x hm)
    · exact hrt x hv
  · have hndt : (t.map Prod.fst).Nodup := by
      apply (hperm.map Prod.fst).nodup_iff.mpr
      rw [List.map_map]
      have : (Prod.fst ∘ fun x => (cid x, enc x)) = cid := rfl
      rw [this]
      exact hnd
    have p1 : List.Perm (upsert Prod.fst t (cid e, enc e))
        ((cid e, enc e) :: t.filter fun r => r.1 != cid e) :=
      @upsert_perm_cons_filter (String × Json) Prod.fst t (cid e, enc e) hndt
    have p2 : List.Perm (t.filter fun r => r.1 != cid e)
        ((L.map fun x => (cid x, enc x)).filter fun r => r.1 != cid e) :=
      hperm.filter _
    have p3 : ((L.map fun x => (cid x, enc x)).filter fun r => r.1 != cid e) =
        ((L.filter fun x => cid x != cid e).map fun x => (cid x, enc x)) := by
      rw [List.filter_map]
      rfl
    have p4 : List.Perm ((upsert cid M e).map fun x => (cid x, enc x))
        ((cid e, enc e) :: (M.filter fun x => cid x != cid e).map fun x => (cid x, enc x)) :=
      (upsert_perm_cons_filter e hndM).map _
    have p5 : List.Perm ((L.filter fun x => cid x != cid e).map fun x => (cid x, enc x))
        ((M.filter fun x => cid x != cid e).map fun x => (cid x, enc x)) :=
      ((hM.symm).filter _).map _
    rw [putRow_eq_upsert]
    refine (p1.trans ?_).trans p4.symm
    exact List.Perm.cons _ ((p2.trans (p3 ▸ List.Perm.refl _)).trans p5)

theorem ColRel_delete_of_perm (hrt : ∀ x, valid x = true → dec (enc x) = some x)
    {b : Option Blob} {t : List (String × Json)} (id : String)
    (M : List α) (hM : List.Perm M (readArray dec b))
    (h : ColRel cid enc dec valid b t) :
    ColRel cid enc dec valid
      (some (.json (.arr ((M.filter fun x => cid x != id).map enc))))
      (deleteRow t id) := by
  obtain ⟨L, hval, hnd, hread, hperm⟩ := h
  rw [hread] at hM
  have hvalM : ∀ x ∈ M, valid x = true := fun x hx => hval x (hM.mem_iff.mp hx)
  have hndM : (M.map cid).Nodup := (hM.map cid).nodup_iff.mpr hnd
  refine ⟨M.filter fun x => cid x != id, ?_, ?_, ?_, ?_⟩
  · intro x hx
    exact hvalM x (List.mem_of_mem_filter hx)
  · exact ((List.filter_sublist M).map cid).nodup hndM
  · apply readArray_write
    intro x hx
    exact hrt x (hvalM x (List.mem_of_mem_filter hx))
  · have p2 : List.Perm (t.filter fun r => r.1 != id)
        ((L.map fun x => (cid x, enc x)).filter fun r => r.1 != id) :=
      hperm.filter _
    have p3 : ((L.map fun x => (cid x, enc x)).filter fun r => r.1 != id) =
        ((L.filter fun x => cid x != id).map fun x => (cid x, enc x)) := by
      rw [List.filter_map]
      rfl
    have p5 : List.Perm ((L.filter fun x => cid x != id).map fun x => (cid x, enc x))
        ((M.filter fun x => cid x != id).map fun x => (cid x, enc x)) :=
      ((hM.symm).filter _).map _
    exact (p2.trans (p3 ▸ List.Perm.refl _)).trans p5

theorem ColRel_getAll (hrt : ∀ x, valid x = true → dec (enc x) = some x)
    {b : Option Blob} {t : List (String × Json)}
    (h : ColRel cid enc dec valid b t) :
    List.Perm (((sortRowsByKey t).map Prod.snd).filterMap dec) (readArray dec b) := by
  obtain ⟨L, hval, hnd, hread, hperm⟩ := h
  rw [hread]
  have p1 : List.Perm (((sortRowsByKey t).map Prod.snd).filterMap dec)
      (((L.map fun x => (cid x, enc x)).map Prod.snd).filterMap dec) :=
    (((sortRowsByKey_perm t).trans hperm).map Prod.snd).filterMap dec
  have p2 : ((L.map fun x => (cid x, enc x)).map Prod.snd) = L.map enc := by
    rw [List.map_map]
    rfl
  rw [p2] at p1
  rw [filterMap_dec_map_enc (fun x hx => hrt x (hval x hx))] at p1
  exact p1

end BackendEquiv

/-- One repository call of the shared contract (getters are pure and are
stated over the resulting stores instead). -/
inductive RepoOp where
  | saveArea (a : Area) : RepoOp
  | deleteArea (id : String) : RepoOp
  | savePlant (p : Plant) : RepoOp
  | deletePlant (id : String) : RepoOp
  | saveSeedling (sd : Seedling) : RepoOp
  | deleteSeedling (id : String) : RepoOp
  | saveEvent (e : GardenEvent) : RepoOp
  | deleteEvent (id : String) : RepoOp
  | saveSettings (st : Settings) : RepoOp

/-- Interpretation of a call against the Flat-Store adapter. -/
def lsApply : RepoOp → LSStore → LSStore
  | .saveArea a, s => LocalStorage.saveArea a s
  | .deleteArea id, s => LocalStorage.deleteArea id s
  | .savePlant p, s => LocalStorage.savePlant p s
  | .deletePlant id, s => LocalStorage.deletePlant id s
  | .saveSeedling sd, s => LocalStorage.saveSeedling sd s
  | .deleteSeedling id, s => LocalStorage.deleteSeedling id s
  | .saveEvent e, s => LocalStorage.saveEvent e s
  | .deleteEvent id, s => LocalStorage.deleteEvent id s
  | .saveSettings st, s => LocalStorage.saveSettings st s

/-- Interpretation of a call against the Indexed-Store adapter. -/
def dexApply : RepoOp → DexieDB → DexieDB
  | .saveArea a, db => Dexie.saveArea a db
  | .deleteArea id, db => Dexie.deleteArea id db
  | .savePlant p, db => Dexie.savePlant p db
  | .deletePlant id, db => Dexie.deletePlant id db
  | .saveSeedling sd, db => Dexie.saveSeedling sd db
  | .deleteSeedling id, db => Dexie.deleteSeedling id db
  | .saveEvent e, db => Dexie.saveEvent e db
  | .deleteEvent id, db => Dexie.deleteEvent id db
  | .saveSettings st, db => Dexie.saveSettings st db

/-- The saved entity of a call is valid (deletes carry no entity). -/
def validOp : RepoOp → Bool
  | .saveArea a => validArea a
  | .deleteArea _ => true
  | .savePlant p => validPlant p
  | .deletePlant _ => true
  | .saveSeedling sd => validSeedling sd
  | .deleteSeedling _ => true
  | .saveEvent e => validGardenEvent e
  | .deleteEvent _ => true
  | .saveSettings st => validSettings st

/-- A call sequence run against the Flat-Store from the empty store. -/
def runLS (ops : List RepoOp) : LSStore :=
  ops.foldl (fun s op => lsApply op s) emptyLS

/-- A call sequence run against the Indexed-Store from the empty store. -/
def runDexie (ops : List RepoOp) : DexieDB :=
  ops.foldl (fun d op => dexApply op d) emptyDexie

/-- Relation between the settings blob and the settings table. -/
def SetRel (b : Option Blob) (t : List (String × Json)) : Prop :=
  (b = none ∧ t = []) ∨
    ∃ st, validSettings st = true ∧ b = some (.json (encSettings st)) ∧
      t = [("singleton", encSettings st)]

/-- Simulation invariant between the two backends. -/
def Inv (ls : LSStore) (db : DexieDB) : Prop :=
  ColRel Area.id encArea decArea validArea ls.areas db.areas ∧
  ColRel Plant.id encPlant decPlant validPlant ls.customPlants db.customPlants ∧
  ColRel Seedling.id encSeedling decSeedling validSeedling ls.seedlings db.seedlings ∧
  ColRel GardenEvent.id encGardenEvent decGardenEvent validGardenEvent
    ls.events db.events ∧
  SetRel ls.settings db.settings

theorem Inv_empty : Inv emptyLS emptyDexie :=
  ⟨ColRel_empty _ _ _ _, ColRel_empty _ _ _ _, ColRel_empty _ _ _ _,
   ColRel_empty _ _ _ _, Or.inl ⟨rfl, rfl⟩⟩

theorem Inv_step {ls : LSStore} {db : DexieDB} (op : RepoOp)
    (hv : validOp op = true) (h : Inv ls db) :
    Inv (lsApply op ls) (dexApply op db) := by
  obtain ⟨hA, hP, hS, hE, hSet⟩ := h
  cases op with
  | saveArea a =>
    exact ⟨ColRel_save_of_perm _ _ _ _ (fun x hx => decArea_enc x hx) a hv _
      (List.Perm.refl _) hA, hP, hS, hE, hSet⟩
  | deleteArea id =>
    exact ⟨ColRel_delete_of_perm _ _ _ _ (fun x hx => decArea_enc x hx) id _
      (List.Perm.refl _) hA, hP, hS, hE, hSet⟩
  | savePlant p =>
    exact ⟨hA, ColRel_save_of_perm _ _ _ _ (fun x hx => decPlant_encPlant x hx) p hv _
      (List.Perm.refl _) hP, hS, hE, hSet⟩
  | deletePlant id =>
    exact ⟨hA, ColRel_delete_of_perm _ _ _ _ (fun x hx => decPlant_encPlant x hx) id _
      (List.Perm.refl _) hP, hS, hE, hSet⟩
  | saveSeedling sd =>
    exact ⟨hA, hP, ColRel_save_of_perm _ _ _ _ (fun x hx => decSeedling_enc x hx) sd hv _
      (List.Perm.refl _) hS, hE, hSet⟩
  | deleteSeedling id =>
    exact ⟨hA, hP, ColRel_delete_of_perm _ _ _ _ (fun x hx => decSeedling_enc x hx) id _
      (List.Perm.refl _) hS, hE, hSet⟩
  | saveEvent e =>
    exact ⟨hA, hP, hS, ColRel_save_of_perm _ _ _ _ (fun x hx => decGardenEvent_enc x hx)
      e hv _ (sortEventsDesc_perm _) hE, hSet⟩
  | deleteEvent id =>
    exact ⟨hA, hP, hS, ColRel_delete_of_perm _ _ _ _ (fun x hx => decGardenEvent_enc x hx)
      id _ (sortEventsDesc_perm _) hE, hSet⟩
  | saveSettings st =>
    refine ⟨hA, hP, hS, hE, ?_⟩
    rcases hSet with ⟨hb, ht⟩ | ⟨st0, _, hb, ht⟩
    · refine Or.inr ⟨st, hv, rfl, ?_⟩
      show putRow db.settings "singleton" (encSettings st) = _
      rw [ht]
      rfl
    · refine Or.inr ⟨st, hv, rfl, ?_⟩
      show putRow db.settings "singleton" (encSettings st) = _
      rw [ht, putRow_cons]
      simp

theorem Inv_run (ops : List RepoOp) (h : ∀ op ∈ ops, validOp op = true)
    {ls : LSStore} {db : DexieDB} (hinv : Inv ls db) :
    Inv (ops.foldl (fun s op => lsApply op s) ls)
      (ops.foldl (fun d op => dexApply op d) db) := by
  induction ops generalizing ls db with
  | nil => exact hinv
  | cons op rest ih =>
    simp only [List.foldl_cons]
    exact ih (fun o ho => h o (List.mem_cons_of_mem op ho))
      (Inv_step op (h op (List.mem_cons_self op rest)) hinv)

/-- Sorting events preserves permutation equivalence. -/
theorem sortEventsDesc_perm_congr {l1 l2 : List GardenEvent}
    (h : List.Perm l1 l2) :
    List.Perm (sortEventsDesc l1) (sortEventsDesc l2) :=
  ((sortEventsDesc_perm l1).trans h).trans (sortEventsDesc_perm l2).symm

-- Concrete entities for the C8 counterexample.

/-- An area whose id sorts second. -/
def cexArea1 : Area := ⟨"b", "Bed B", none, none, [], "default"⟩

/-- An area whose id sorts first. -/
def cexArea2 : Area := ⟨"a", "Bed A", none, none, [], "default"⟩

/-- Counterexample to C8 as stated: the same two saves against both
backends from empty stores yield different getAreas list orders — the
Flat-Store preserves insertion order while the Indexed-Store returns rows
in ascending primary-key order. -/
theorem C8_counterexample :
    LocalStorage.getAreas
        (LocalStorage.saveArea cexArea2 (LocalStorage.saveArea cexArea1 emptyLS)) ≠
      Dexie.getAreas (Dexie.saveArea cexArea2 (Dexie.saveArea cexArea1 emptyDexie)) := by
  decide

/-- C8 (amended). For every sequence of save/delete/saveSettings calls of
valid entities applied to both backends from empty stores, every list
getter returns the same entities on both backends up to order (the lists
are permutations of each other) and getSettings returns equal settings;
equal list order does not hold, as the Indexed-Store returns primary-key
order while the Flat-Store preserves insertion order. -/
theorem C8_backend_equiv_up_to_order (ops : List RepoOp)
    (hv : ∀ op ∈ ops, validOp op = true) :
    List.Perm (Dexie.getAreas (runDexie ops)) (LocalStorage.getAreas (runLS ops)) ∧
    List.Perm (Dexie.getCustomPlants (runDexie ops))
      (LocalStorage.getCustomPlants (runLS ops)) ∧
    List.Perm (Dexie.getSeedlings (runDexie ops))
      (LocalStorage.getSeedlings (runLS ops)) ∧
    List.Perm (Dexie.getEvents (runDexie ops))
      (LocalStorage.getEvents (runLS ops)) ∧
    Dexie.getSettings (runDexie ops) = LocalStorage.getSettings (runLS ops) := by
  have hinv : Inv (runLS ops) (runDexie ops) := Inv_run ops hv Inv_empty
  obtain ⟨hA, hP, hS, hE, hSet⟩ := hinv
  refine ⟨?_, ?_, ?_, ?_, ?_⟩
  · exact ColRel_getAll _ _ _ _ (fun x hx => decArea_enc x hx) hA
  · exact ColRel_getAll _ _ _ _ (fun x hx => decPlant_encPlant x hx) hP
  · exact ColRel_getAll _ _ _ _ (fun x hx => decSeedling_enc x hx) hS
  · exact sortEventsDesc_perm_congr
      (ColRel_getAll _ _ _ _ (fun x hx => decGardenEvent_enc x hx) hE)
  · rcases hSet with ⟨hb, ht⟩ | ⟨st, hvs, hb, ht⟩
    · show Dexie.getSettings (runDexie ops) = LocalStorage.getSettings (runLS ops)
      unfold Dexie.getSettings LocalStorage.getSettings readRaw
      rw [hb, ht]
      rfl
    · unfold Dexie.getSettings LocalStorage.getSettings readRaw
      rw [hb, ht]
      simp only [lookupField]
      rfl

/-- Witness for the amended C8 at a concrete call sequence. -/
theorem C8_amended_witness :
    List.Perm (Dexie.getAreas (runDexie [.saveArea cexArea1, .saveArea cexArea2]))
      (LocalStorage.getAreas (runLS [.saveArea cexArea1, .saveArea cexArea2])) ∧
    List.Perm
      (Dexie.getCustomPlants (runDexie [.saveArea cexArea1, .saveArea cexArea2]))
      (LocalStorage.getCustomPlants (runLS [.saveArea cexArea1, .saveArea cexArea2])) ∧
    List.Perm
      (Dexie.getSeedlings (runDexie [.saveArea cexArea1, .saveArea cexArea2]))
      (LocalStorage.getSeedlings (runLS [.saveArea cexArea1, .saveArea cexArea2])) ∧
    List.Perm (Dexie.getEvents (runDexie [.saveArea cexArea1, .saveArea cexArea2]))
      (LocalStorage.getEvents (runLS [.saveArea cexArea1, .saveArea cexArea2])) ∧
    Dexie.getSettings (runDexie [.saveArea cexArea1, .saveArea cexArea2]) =
      LocalStorage.getSettings (runLS [.saveArea cexArea1, .saveArea cexArea2]) :=
  C8_backend_equiv_up_to_order [.saveArea cexArea1, .saveArea cexArea2]
    (by intro op hop; fin_cases hop <;> decide)

end GardenPlanner
